import Mathlib

/-!
Shallow embedding of the az13js/midi-music-generator composition engine
(`src/core/theory.py`, `src/core/structure.py`, `src/generators/*.py`,
`src/composers/simple_arranger.py`) together with theorems settling the
frozen claims about its specification.

Modelling conventions:
* Python ints are `ℤ` (or `ℕ` where the program only ever produces
  non-negative values, e.g. chord roots and inversions); Python floats in
  this code base only ever hold decimal literals and sums/products of
  them, so they are embedded as `ℚ` with the literals read exactly.
* `int(x)` is truncation toward zero (`pyTrunc`).
* Code that can raise (`ZeroDivisionError`, `ValueError`, `TypeError`,
  `IndexError`) is embedded in `Option`, with `none` as the raised state.
* The ambient `random` module is an abstract stream `RNG` supplying one
  float in `[0,1)` (`q`) and one natural (`n`, used to pick an index)
  per consumed call; claims quantify over all streams.
-/

namespace MidiGen

/-- Truncation toward zero, the semantics of Python `int(...)` on a real. -/
def pyTrunc (x : ℚ) : ℤ := if 0 ≤ x then ⌊x⌋ else ⌈x⌉

/-- Abstract random source: `q k` is the `k`-th `random.random()` float and
`n k` the `k`-th index drawn for `choice`/`randint`/`sample`. One consumed
call advances both streams by one. -/
structure RNG where
  q : ℕ → ℚ
  n : ℕ → ℕ

/-- Advance the random source by one consumed call. -/
def RNG.tail (g : RNG) : RNG := ⟨fun i => g.q (i + 1), fun i => g.n (i + 1)⟩

/-- `random.choice(l)`: pick the element indexed by the stream (the program
only ever calls it on non-empty lists, where `getD` never sees its default). -/
def pyChoice {α : Type} (l : List α) (d : α) (g : RNG) : α × RNG :=
  (l.getD (g.n 0 % l.length) d, g.tail)

/-- `random.randint(a, b)` for `a ≤ b`: an integer in `[a, b]`. -/
def pyRandint (a b : ℤ) (g : RNG) : ℤ × RNG :=
  (a + (g.n 0 % (b - a + 1).toNat : ℕ), g.tail)

/-- `random.random()`. -/
def pyRandom (g : RNG) : ℚ × RNG := (g.q 0, g.tail)

/-- Hypothesis that a random source produces floats in `[0,1)`, as
`random.random()` guarantees. -/
def RNG.InRange (g : RNG) : Prop := ∀ k, 0 ≤ g.q k ∧ g.q k < 1

/-- Python list indexing `l[i]` with negative wrap-around; `none` is an
`IndexError`. -/
def pyListGet {α : Type} (l : List α) (i : ℤ) : Option α :=
  if 0 ≤ i then l.get? i.toNat
  else if -(l.length : ℤ) ≤ i then l.get? (l.length - (-i).toNat)
  else none

/-! ### `core/theory.py`: scales -/

/-- `ScaleType` enum. -/
inductive ScaleType where
  | MAJOR | MINOR | HARMONIC_MINOR | MELODIC_MINOR
  | DORIAN | PHRYGIAN | LYDIAN | MIXOLYDIAN | LOCRIAN
  | PENTATONIC_MAJOR | PENTATONIC_MINOR | BLUES | CHROMATIC | WHOLE_TONE
  deriving DecidableEq, Repr

/-- `Key` enum (all 29 members). -/
inductive Key where
  | C_MAJOR | C_SHARP_MAJOR | D_FLAT_MAJOR | D_MAJOR | D_SHARP_MAJOR
  | E_FLAT_MAJOR | E_MAJOR | F_MAJOR | F_SHARP_MAJOR | G_FLAT_MAJOR
  | G_MAJOR | G_SHARP_MAJOR | A_FLAT_MAJOR | A_MAJOR | A_SHARP_MAJOR
  | B_FLAT_MAJOR | B_MAJOR
  | C_MINOR | C_SHARP_MINOR | D_MINOR | D_SHARP_MINOR | E_MINOR
  | F_MINOR | F_SHARP_MINOR | G_MINOR | G_SHARP_MINOR | A_MINOR
  | A_SHARP_MINOR | B_MINOR
  deriving DecidableEq, Repr

/-- The `value` of each `Key` enum member. -/
def Key.value : Key → String
  | .C_MAJOR => "C" | .C_SHARP_MAJOR => "C#" | .D_FLAT_MAJOR => "Db"
  | .D_MAJOR => "D" | .D_SHARP_MAJOR => "D#" | .E_FLAT_MAJOR => "Eb"
  | .E_MAJOR => "E" | .F_MAJOR => "F" | .F_SHARP_MAJOR => "F#"
  | .G_FLAT_MAJOR => "Gb" | .G_MAJOR => "G" | .G_SHARP_MAJOR => "G#"
  | .A_FLAT_MAJOR => "Ab" | .A_MAJOR => "A" | .A_SHARP_MAJOR => "A#"
  | .B_FLAT_MAJOR => "Bb" | .B_MAJOR => "B"
  | .C_MINOR => "Cm" | .C_SHARP_MINOR => "C#m" | .D_MINOR => "Dm"
  | .D_SHARP_MINOR => "D#m" | .E_MINOR => "Em" | .F_MINOR => "Fm"
  | .F_SHARP_MINOR => "F#m" | .G_MINOR => "Gm" | .G_SHARP_MINOR => "G#m"
  | .A_MINOR => "Am" | .A_SHARP_MINOR => "A#m" | .B_MINOR => "Bm"

/-- The `base_notes` table inside `Key.tonic`. -/
def base_notes : List (String × ℤ) :=
  [("C", 60), ("C#", 61), ("Db", 61), ("D", 62), ("D#", 63), ("Eb", 63),
   ("E", 64), ("F", 65), ("F#", 66), ("Gb", 66), ("G", 67), ("G#", 68),
   ("Ab", 68), ("A", 69), ("A#", 70), ("Bb", 70), ("B", 71)]

/-- `value.replace("m", "")`: every `m` character removed (no key name
contains `m` other than the minor marker, and the pattern is a single
character, so character filtering is exactly `str.replace`). -/
def stripMinorMark (s : String) : String := ⟨s.data.filter (fun ch => ch ≠ 'm')⟩

/-- `Key.tonic`: MIDI number of the tonic (C4 = 60 based). -/
def Key.tonic (k : Key) : ℤ :=
  ((base_notes.lookup (stripMinorMark k.value)).getD 60)

/-- `Key.is_minor`: whether the enum value ends with `m` (i.e. its last
character is `m`; no key name has `m` elsewhere). -/
def Key.minor (k : Key) : Bool := k.value.data.getLast? = some 'm'

/-- `Key.scale_type`: default scale type of a key. -/
def Key.scale_type (k : Key) : ScaleType :=
  if k.minor then ScaleType.MINOR else ScaleType.MAJOR

/-- `get_scale_intervals`: semitone-step pattern of each scale type. -/
def get_scale_intervals : ScaleType → List ℤ
  | .MAJOR => [2, 2, 1, 2, 2, 2, 1]
  | .MINOR => [2, 1, 2, 2, 1, 2, 2]
  | .HARMONIC_MINOR => [2, 1, 2, 2, 1, 3, 1]
  | .MELODIC_MINOR => [2, 1, 2, 2, 2, 2, 1]
  | .DORIAN => [2, 1, 2, 2, 2, 1, 2]
  | .PHRYGIAN => [1, 2, 2, 2, 1, 2, 2]
  | .LYDIAN => [2, 2, 2, 1, 2, 2, 1]
  | .MIXOLYDIAN => [2, 2, 1, 2, 2, 1, 2]
  | .LOCRIAN => [1, 2, 2, 1, 2, 2, 2]
  | .PENTATONIC_MAJOR => [2, 2, 3, 2, 3]
  | .PENTATONIC_MINOR => [3, 2, 2, 3, 2]
  | .BLUES => [3, 2, 1, 1, 3, 2]
  | .CHROMATIC => List.replicate 12 1
  | .WHOLE_TONE => List.replicate 6 2

/-- `get_scale_notes`: walk the interval pattern cumulatively from
`tonic + (octave-4)*12`, repeating it `num_octaves` times, and drop the
final repeated tonic. -/
def get_scale_notes (key : Key) (scale_type : Option ScaleType)
    (octave : ℤ) (num_octaves : ℕ) : List ℤ :=
  let st := scale_type.getD key.scale_type
  let intervals := get_scale_intervals st
  let tonic := key.tonic + (octave - 4) * 12
  ((List.flatten (List.replicate num_octaves intervals)).scanl
    (fun a b => a + b) tonic).dropLast

/-! ### `core/theory.py`: chords -/

/-- `ChordQuality` enum. -/
inductive ChordQuality where
  | MAJOR | MINOR | DIMINISHED | AUGMENTED | SUSPENDED2 | SUSPENDED4
  | MAJOR_SEVENTH | MINOR_SEVENTH | DOMINANT_SEVENTH | DIMINISHED_SEVENTH
  | HALF_DIMINISHED_SEVENTH | MINOR_MAJOR_SEVENTH | AUGMENTED_MAJOR_SEVENTH
  | AUGMENTED_SEVENTH
  | MAJOR_NINTH | MINOR_NINTH | DOMINANT_NINTH | MINOR_MAJOR_NINTH
  | MAJOR_ELEVENTH | MINOR_ELEVENTH | DOMINANT_ELEVENTH
  | MAJOR_THIRTEENTH | MINOR_THIRTEENTH | DOMINANT_THIRTEENTH
  deriving DecidableEq, Repr

/-- `get_chord_intervals`: semitone offsets of each chord quality. -/
def get_chord_intervals : ChordQuality → List ℤ
  | .MAJOR => [0, 4, 7]
  | .MINOR => [0, 3, 7]
  | .DIMINISHED => [0, 3, 6]
  | .AUGMENTED => [0, 4, 8]
  | .SUSPENDED2 => [0, 2, 7]
  | .SUSPENDED4 => [0, 5, 7]
  | .MAJOR_SEVENTH => [0, 4, 7, 11]
  | .MINOR_SEVENTH => [0, 3, 7, 10]
  | .DOMINANT_SEVENTH => [0, 4, 7, 10]
  | .DIMINISHED_SEVENTH => [0, 3, 6, 9]
  | .HALF_DIMINISHED_SEVENTH => [0, 3, 6, 10]
  | .MINOR_MAJOR_SEVENTH => [0, 3, 7, 11]
  | .AUGMENTED_MAJOR_SEVENTH => [0, 4, 8, 11]
  | .AUGMENTED_SEVENTH => [0, 4, 8, 10]
  | .MAJOR_NINTH => [0, 4, 7, 11, 14]
  | .MINOR_NINTH => [0, 3, 7, 10, 14]
  | .DOMINANT_NINTH => [0, 4, 7, 10, 14]
  | .MINOR_MAJOR_NINTH => [0, 3, 7, 11, 14]
  | .MAJOR_ELEVENTH => [0, 4, 7, 11, 14, 17]
  | .MINOR_ELEVENTH => [0, 3, 7, 10, 14, 17]
  | .DOMINANT_ELEVENTH => [0, 4, 7, 10, 14, 17]
  | .MAJOR_THIRTEENTH => [0, 4, 7, 11, 14, 17, 21]
  | .MINOR_THIRTEENTH => [0, 3, 7, 10, 14, 17, 21]
  | .DOMINANT_THIRTEENTH => [0, 4, 7, 10, 14, 17, 21]

/-- `Chord` dataclass. The program only ever constructs non-negative roots
and inversions, so those fields are `ℕ`. -/
structure Chord where
  root : ℕ
  quality : ChordQuality
  inversion : ℕ
  bass_note : Option ℤ
  deriving DecidableEq, Repr

/-- `Chord.get_midi_notes`: scale lookup of the root (with the linear
extrapolation fallback `scale[0] + root*2`), offsets of the quality,
inversion raising the lowest `min(inversion, size-1)` pitches by an octave,
then the explicit-bass rewrite. -/
def Chord.get_midi_notes (c : Chord) (key : Key) (octave : ℤ) : List ℤ :=
  let scale_notes := get_scale_notes key none octave 2
  let root_note :=
    if c.root < scale_notes.length then scale_notes.getD c.root 0
    else scale_notes.headD 0 + (c.root : ℤ) * 2
  let intervals := get_chord_intervals c.quality
  let chord_notes := intervals.map (fun i => root_note + i)
  let chord_notes :=
    if 0 < c.inversion then
      let inversion_count := min c.inversion (chord_notes.length - 1)
      chord_notes.mapIdx (fun i note => if i < inversion_count then note + 12 else note)
    else chord_notes
  match c.bass_note with
  | none => chord_notes
  | some b => b :: chord_notes.filter (fun note => note ≠ b)

/-- `get_diatonic_chord`: quality from the seven-entry table (major table
when `quality_type == "major"` or the key is major), root `(degree-1) % 7`. -/
def get_diatonic_chord (degree : ℕ) (key : Key) (quality_type : String) : Chord :=
  let major_qualities : List ChordQuality :=
    [.MAJOR, .MINOR, .MINOR, .MAJOR, .MAJOR, .MINOR, .DIMINISHED]
  let minor_qualities : List ChordQuality :=
    [.MINOR, .DIMINISHED, .MAJOR, .MINOR, .MINOR, .MAJOR, .MAJOR]
  let qualities :=
    if quality_type = "major" ∨ ¬ key.minor then major_qualities else minor_qualities
  let root := (degree - 1) % 7
  Chord.mk root (qualities.getD root ChordQuality.MAJOR) 0 none

/-- `ChordProgression` dataclass. -/
structure ChordProgression where
  name : String
  description : String
  chords : List (ℕ × ChordQuality)
  style : String
  complexity : ℕ
  deriving DecidableEq, Repr

/-- `get_progression_by_name` over the `CHORD_PROGRESSIONS` dict. -/
def get_progression_by_name (name : String) : Option ChordProgression :=
  if name = "pop_basic" then
    some ⟨"pop_basic", "I-V-vi-IV",
      [(1, .MAJOR), (5, .MAJOR), (6, .MINOR), (4, .MAJOR)], "pop", 1⟩
  else if name = "pop_50s" then
    some ⟨"pop_50s", "I-vi-IV-V",
      [(1, .MAJOR), (6, .MINOR), (4, .MAJOR), (5, .MAJOR)], "pop", 1⟩
  else if name = "jazz_251" then
    some ⟨"jazz_251", "ii-V-I",
      [(2, .MINOR), (5, .DOMINANT_SEVENTH), (1, .MAJOR_SEVENTH)], "jazz", 2⟩
  else if name = "jazz_rhythm" then
    some ⟨"jazz_rhythm", "I-vi-ii-V",
      [(1, .MAJOR_SEVENTH), (6, .MINOR_SEVENTH), (2, .MINOR_SEVENTH),
       (5, .DOMINANT_SEVENTH)], "jazz", 2⟩
  else if name = "rock_basic" then
    some ⟨"rock_basic", "I-IV-V",
      [(1, .MAJOR), (4, .MAJOR), (5, .MAJOR)], "rock", 1⟩
  else if name = "blues_basic" then
    some ⟨"blues_basic", "12-bar blues",
      [(1, .DOMINANT_SEVENTH), (4, .DOMINANT_SEVENTH), (1, .DOMINANT_SEVENTH),
       (5, .DOMINANT_SEVENTH), (4, .DOMINANT_SEVENTH), (1, .DOMINANT_SEVENTH)],
      "blues", 2⟩
  else if name = "classical_authentic" then
    some ⟨"classical_authentic", "V-I", [(5, .MAJOR), (1, .MAJOR)], "classical", 1⟩
  else if name = "classical_plagal" then
    some ⟨"classical_plagal", "IV-I", [(4, .MAJOR), (1, .MAJOR)], "classical", 1⟩
  else if name = "modern_trending" then
    some ⟨"modern_trending", "vi-IV-I-V",
      [(6, .MINOR), (4, .MAJOR), (1, .MAJOR), (5, .MAJOR)], "pop", 2⟩
  else if name = "complex_cycle" then
    some ⟨"complex_cycle", "circle of fifths",
      [(1, .MAJOR_SEVENTH), (4, .DOMINANT_SEVENTH), (7, .DIMINISHED_SEVENTH),
       (3, .MINOR_SEVENTH), (6, .MINOR_SEVENTH), (2, .MINOR_SEVENTH),
       (5, .DOMINANT_SEVENTH), (1, .MAJOR_SEVENTH)], "jazz", 4⟩
  else none

/-! ### `core/theory.py`: voice leading -/

/-- `VoiceLeading` enum. -/
inductive VoiceLeading where
  | CLOSE | OPEN | MIXED | SMOOTH
  deriving DecidableEq, Repr

/-- `movement = sum(abs(test_notes[j] - previous_notes[j]) for j in
range(min(len(test_notes), len(previous_notes))))`. -/
def movement (test_notes previous_notes : List ℤ) : ℤ :=
  ((List.range (min test_notes.length previous_notes.length)).map
    (fun j => |test_notes.getD j 0 - previous_notes.getD j 0|)).sum

/-- One step of the inversion search of `apply_voice_leading`: fold over
inversions 0..3 with `min_movement = inf` and `best_inversion =
chords[i].inversion` as the start, updating on strict improvement. -/
def bestInversion (key : Key) (previous_notes : List ℤ) (c : Chord) : ℕ :=
  (([0, 1, 2, 3] : List ℕ).foldl
    (fun acc inversion =>
      let test_chord : Chord := ⟨c.root, c.quality, inversion, none⟩
      let m := movement (test_chord.get_midi_notes key 4) previous_notes
      match acc.1 with
      | none => (some m, inversion)
      | some mm => if m < mm then (some m, inversion) else acc)
    ((none : Option ℤ), c.inversion)).2

/-- The per-chord rewrite of the SMOOTH branch of `apply_voice_leading`. -/
def vlStep (key : Key) (previous_notes : List ℤ) (c : Chord) : Chord :=
  ⟨c.root, c.quality, bestInversion key previous_notes c, c.bass_note⟩

/-- Tail loop of `apply_voice_leading`, threading `previous_notes`. -/
def vlGo (key : Key) : List ℤ → List Chord → List Chord
  | _, [] => []
  | previous_notes, c :: cs =>
    let c' := vlStep key previous_notes c
    c' :: vlGo key (c'.get_midi_notes key 4) cs

/-- `apply_voice_leading`: for the SMOOTH strategy on a list of length > 1,
rewrite each chord after the first to the inversion found by the greedy
search; otherwise return the list unchanged. -/
def apply_voice_leading (chords : List Chord) (key : Key)
    (strategy : VoiceLeading) : List Chord :=
  match strategy, chords with
  | .SMOOTH, c0 :: c1 :: rest =>
    c0 :: vlGo key (c0.get_midi_notes key 4) (c1 :: rest)
  | _, cs => cs

/-- `analyze_melody_congruence`: 1 point per melody note whose pitch class
is a chord tone, 0.5 if merely in scale, averaged; `0.0` on an empty list. -/
def analyze_melody_congruence (melody_notes : List ℤ) (chord : Chord)
    (key : Key) : ℚ :=
  let chord_notes := chord.get_midi_notes key 4
  let scale_notes := get_scale_notes key none 4 1
  let congruent_count : ℚ :=
    (melody_notes.map (fun note =>
      if (chord_notes.map (· % 12)).contains (note % 12) then (1 : ℚ)
      else if (scale_notes.map (· % 12)).contains (note % 12) then (1 : ℚ)/2
      else 0)).sum
  if melody_notes ≠ [] then congruent_count / melody_notes.length else 0

/-! ### Spec-side notions for the voice-leading claim -/

/-- Spec-side movement of "chord `c` with inversion `v`" against a previous
pitch list, following the claim's words (the chord keeps all its other
fields, `bass_note` included). -/
def claimMovement (key : Key) (prev : List ℤ) (c : Chord) (v : ℕ) : ℤ :=
  movement (({ c with inversion := v } : Chord).get_midi_notes key 4) prev

/-- Spec-side selection property of the claim: `v` is an inversion in
{0,1,2,3} of minimal movement, and strictly better than every earlier
inversion (i.e. the first minimum encountered trying 0,1,2,3 in order). -/
def IsFirstMinInversion (key : Key) (prev : List ℤ) (c : Chord) (v : ℕ) : Prop :=
  v < 4 ∧ (∀ w, w < 4 → claimMovement key prev c v ≤ claimMovement key prev c w) ∧
  (∀ w, w < v → claimMovement key prev c v < claimMovement key prev c w)

instance (key : Key) (prev : List ℤ) (c : Chord) (v : ℕ) :
    Decidable (IsFirstMinInversion key prev c v) := by
  unfold IsFirstMinInversion; infer_instance

/-- A throwaway chord used only as the default of `List.getD`. -/
def cdum : Chord := ⟨0, ChordQuality.MAJOR, 0, none⟩

/-- The shape of the greedy inversion fold, abstracted over the movement
function: start at `(inf, d)` and keep the first strict improvement. -/
def fold4 (m : ℕ → ℤ) (d : ℕ) : Option ℤ × ℕ :=
  (([0, 1, 2, 3] : List ℕ).foldl
    (fun acc v =>
      match acc.1 with
      | none => (some (m v), v)
      | some mm => if m v < mm then (some (m v), v) else acc)
    ((none : Option ℤ), d))

/-- The greedy fold lands on the first minimum of `m 0, m 1, m 2, m 3`. -/
theorem fold4_firstMin (m : ℕ → ℤ) (d : ℕ) :
    (fold4 m d).2 < 4 ∧ (∀ w, w < 4 → m (fold4 m d).2 ≤ m w) ∧
    ∀ w, w < (fold4 m d).2 → m (fold4 m d).2 < m w := by
  simp only [fold4, List.foldl]
  by_cases h1 : m 1 < m 0 <;> simp only [h1, if_true, if_false]
  · by_cases h2 : m 2 < m 1 <;> simp only [h2, if_true, if_false]
    · by_cases h3 : m 3 < m 2 <;> simp only [h3, if_true, if_false] <;>
        refine ⟨by norm_num, ?_, ?_⟩ <;> intro w hw <;> interval_cases w <;> omega
    · by_cases h3 : m 3 < m 1 <;> simp only [h3, if_true, if_false] <;>
        refine ⟨by norm_num, ?_, ?_⟩ <;> intro w hw <;> interval_cases w <;> omega
  · by_cases h2 : m 2 < m 0 <;> simp only [h2, if_true, if_false]
    · by_cases h3 : m 3 < m 2 <;> simp only [h3, if_true, if_false] <;>
        refine ⟨by norm_num, ?_, ?_⟩ <;> intro w hw <;> interval_cases w <;> omega
    · by_cases h3 : m 3 < m 0 <;> simp only [h3, if_true, if_false] <;>
        refine ⟨by norm_num, ?_, ?_⟩ <;> intro w hw <;> interval_cases w <;> omega

/-- For a chord without an explicit bass note, the inversion picked by the
code's greedy fold is exactly the claim's first-minimum inversion. -/
theorem bestInversion_isFirstMin (key : Key) (prev : List ℤ) (c : Chord)
    (h : c.bass_note = none) :
    IsFirstMinInversion key prev c (bestInversion key prev c) := by
  obtain ⟨r, q, i, b⟩ := c
  subst h
  have hb : bestInversion key prev ⟨r, q, i, none⟩ =
      (fold4 (fun v =>
        movement ((Chord.mk r q v none).get_midi_notes key 4) prev) i).2 := rfl
  have hc : ∀ v, claimMovement key prev ⟨r, q, i, none⟩ v =
      movement ((Chord.mk r q v none).get_midi_notes key 4) prev := fun _ => rfl
  have := fold4_firstMin
    (fun v => movement ((Chord.mk r q v none).get_midi_notes key 4) prev) i
  refine ⟨?_, ?_, ?_⟩
  · rw [hb]; exact this.1
  · intro w hw; rw [hb, hc, hc]; exact this.2.1 w hw
  · intro w hw; rw [hb, hc, hc]; refine this.2.2 w ?_; rwa [hb] at hw

/-- Per-index specification of `vlGo`: each produced chord keeps root,
quality and (absent) bass of the source chord, and its inversion is the
first-minimum inversion against the pitches of the previously produced
chord (the given `prev` for the first element). -/
theorem vlGo_spec (key : Key) :
    ∀ (cs : List Chord) (prev : List ℤ), (∀ c ∈ cs, c.bass_note = none) →
    (vlGo key prev cs).length = cs.length ∧
    ∀ i, i < cs.length →
      (((vlGo key prev cs).getD i cdum).root = (cs.getD i cdum).root ∧
       ((vlGo key prev cs).getD i cdum).quality = (cs.getD i cdum).quality ∧
       ((vlGo key prev cs).getD i cdum).bass_note = none) ∧
      IsFirstMinInversion key
        (if i = 0 then prev
         else ((vlGo key prev cs).getD (i - 1) cdum).get_midi_notes key 4)
        (cs.getD i cdum) (((vlGo key prev cs).getD i cdum).inversion) := by
  intro cs
  induction cs with
  | nil => intro prev _; exact ⟨rfl, fun i hi => absurd hi (by simp)⟩
  | cons c cs ih =>
    intro prev hb
    have hc : c.bass_note = none := hb c (List.mem_cons_self c cs)
    have hcs : ∀ c' ∈ cs, c'.bass_note = none :=
      fun c' h' => hb c' (List.mem_cons_of_mem c h')
    have step : vlGo key prev (c :: cs) =
        vlStep key prev c ::
          vlGo key ((vlStep key prev c).get_midi_notes key 4) cs := rfl
    obtain ⟨ihlen, ihspec⟩ := ih ((vlStep key prev c).get_midi_notes key 4) hcs
    constructor
    · rw [step]; simpa using ihlen
    · intro i hi
      match i with
      | 0 =>
        refine ⟨⟨rfl, rfl, ?_⟩, ?_⟩
        · simpa [step, vlStep] using hc
        · simpa [step, vlStep] using bestInversion_isFirstMin key prev c hc
      | Nat.succ j =>
        have hj : j < cs.length := by simpa using hi
        obtain ⟨⟨h1, h2, h3⟩, h4⟩ := ihspec j hj
        refine ⟨⟨by simpa [step] using h1, by simpa [step] using h2,
                 by simpa [step] using h3⟩, ?_⟩
        match j with
        | 0 => simpa [step] using h4
        | Nat.succ k => simpa [step] using h4

/-- C1 (amended form): on a list of at least two chords none of which has an
explicit bass note, the SMOOTH pass keeps the first chord, keeps every
root/quality/bass, and rewrites each later inversion to the first-minimum
inversion against the previously chosen chord's pitch list. -/
theorem C1_voice_leading_amended (key : Key) (chords : List Chord)
    (hb : ∀ c ∈ chords, c.bass_note = none) (hlen : 2 ≤ chords.length) :
    (apply_voice_leading chords key .SMOOTH).length = chords.length ∧
    (apply_voice_leading chords key .SMOOTH).getD 0 cdum = chords.getD 0 cdum ∧
    ∀ i, i + 1 < chords.length →
      (((apply_voice_leading chords key .SMOOTH).getD (i + 1) cdum).root =
        (chords.getD (i + 1) cdum).root ∧
       ((apply_voice_leading chords key .SMOOTH).getD (i + 1) cdum).quality =
        (chords.getD (i + 1) cdum).quality ∧
       ((apply_voice_leading chords key .SMOOTH).getD (i + 1) cdum).bass_note =
        none) ∧
      IsFirstMinInversion key
        (((apply_voice_leading chords key .SMOOTH).getD i cdum).get_midi_notes
          key 4)
        (chords.getD (i + 1) cdum)
        (((apply_voice_leading chords key .SMOOTH).getD (i + 1) cdum).inversion) := by
  match chords, hlen with
  | c0 :: c1 :: rest, _ =>
    have hb0 : c0.bass_note = none := hb c0 (by simp)
    have hbtail : ∀ c ∈ c1 :: rest, c.bass_note = none :=
      fun c h => hb c (List.mem_cons_of_mem c0 h)
    have hav : apply_voice_leading (c0 :: c1 :: rest) key .SMOOTH =
        c0 :: vlGo key (c0.get_midi_notes key 4) (c1 :: rest) := rfl
    obtain ⟨glen, gspec⟩ := vlGo_spec key (c1 :: rest) (c0.get_midi_notes key 4) hbtail
    refine ⟨by rw [hav]; simpa using glen, by rw [hav]; rfl, ?_⟩
    intro i hi
    have hi' : i < (c1 :: rest).length := by simpa using hi
    obtain ⟨hfields, hmin⟩ := gspec i hi'
    refine ⟨by simpa [hav] using hfields, ?_⟩
    match i with
    | 0 => simpa [hav] using hmin
    | Nat.succ k => simpa [hav] using hmin

/-- Concrete input for the C1 witness: the I and V triads of C major. -/
def c1chords : List Chord := [⟨0, .MAJOR, 0, none⟩, ⟨4, .MAJOR, 0, none⟩]

/-- C1 witness: the amended voice-leading theorem applied to the I-V pair in
C major. -/
theorem C1_voice_leading_witness :
    (apply_voice_leading c1chords Key.C_MAJOR .SMOOTH).length = c1chords.length ∧
    (apply_voice_leading c1chords Key.C_MAJOR .SMOOTH).getD 0 cdum =
      c1chords.getD 0 cdum ∧
    ∀ i, i + 1 < c1chords.length →
      (((apply_voice_leading c1chords Key.C_MAJOR .SMOOTH).getD (i + 1) cdum).root =
        (c1chords.getD (i + 1) cdum).root ∧
       ((apply_voice_leading c1chords Key.C_MAJOR .SMOOTH).getD (i + 1) cdum).quality =
        (c1chords.getD (i + 1) cdum).quality ∧
       ((apply_voice_leading c1chords Key.C_MAJOR .SMOOTH).getD (i + 1) cdum).bass_note =
        none) ∧
      IsFirstMinInversion Key.C_MAJOR
        (((apply_voice_leading c1chords Key.C_MAJOR .SMOOTH).getD i cdum).get_midi_notes
          Key.C_MAJOR 4)
        (c1chords.getD (i + 1) cdum)
        (((apply_voice_leading c1chords Key.C_MAJOR .SMOOTH).getD (i + 1) cdum).inversion) :=
  C1_voice_leading_amended Key.C_MAJOR c1chords (by decide) (by decide)

/-- C1 counterexample: with a second chord carrying an explicit bass note
(C major triad over a bass of 60, after a second-inversion C triad), the
code stores inversion 2, but inversion 2 is not the claim's first-minimum
inversion once the candidate pitches are computed as "chord i with
inversion v" (which keeps the bass note, as the pitch list of such a chord
does). -/
theorem C1_voice_leading_counterexample :
    (((apply_voice_leading [⟨0, .MAJOR, 2, none⟩, ⟨0, .MAJOR, 0, some 60⟩]
        Key.C_MAJOR .SMOOTH).getD 1 cdum).inversion = 2) ∧
    ¬ IsFirstMinInversion Key.C_MAJOR
        (((apply_voice_leading [⟨0, .MAJOR, 2, none⟩, ⟨0, .MAJOR, 0, some 60⟩]
            Key.C_MAJOR .SMOOTH).getD 0 cdum).get_midi_notes Key.C_MAJOR 4)
        (⟨0, .MAJOR, 0, some 60⟩ : Chord)
        (((apply_voice_leading [⟨0, .MAJOR, 2, none⟩, ⟨0, .MAJOR, 0, some 60⟩]
            Key.C_MAJOR .SMOOTH).getD 1 cdum).inversion) := by
  decide

/-- C2: for a chord without an explicit bass note, the pitch list has the
same length as the quality's interval list, and inversion `k > 0` equals
the inversion-0 list with exactly the lowest `min(k, size-1)` entries (by
index) raised by 12. -/
theorem C2_get_midi_notes (key : Key) (octave : ℤ) (c : Chord)
    (h : c.bass_note = none) :
    (c.get_midi_notes key octave).length = (get_chord_intervals c.quality).length ∧
    (0 < c.inversion →
      c.get_midi_notes key octave =
        ((Chord.mk c.root c.quality 0 none).get_midi_notes key octave).mapIdx
          (fun i note =>
            if i < min c.inversion ((get_chord_intervals c.quality).length - 1)
            then note + 12 else note)) := by
  obtain ⟨r, q, i, b⟩ := c
  subst h
  constructor
  · by_cases hi : 0 < i <;> simp [Chord.get_midi_notes, hi]
  · intro hi
    simp only [Chord.get_midi_notes, hi, if_pos, Nat.lt_irrefl, if_neg,
      List.length_map, if_false, ite_false]

/-- C2 witness: the second-inversion I triad of C major. -/
theorem C2_get_midi_notes_witness :
    ((Chord.mk 0 .MAJOR 2 none).get_midi_notes Key.C_MAJOR 4).length =
      (get_chord_intervals .MAJOR).length ∧
    (0 < (Chord.mk 0 .MAJOR 2 none).inversion →
      (Chord.mk 0 .MAJOR 2 none).get_midi_notes Key.C_MAJOR 4 =
        ((Chord.mk 0 .MAJOR 0 none).get_midi_notes Key.C_MAJOR 4).mapIdx
          (fun i note =>
            if i < min 2 ((get_chord_intervals ChordQuality.MAJOR).length - 1)
            then note + 12 else note)) :=
  C2_get_midi_notes Key.C_MAJOR 4 ⟨0, .MAJOR, 2, none⟩ rfl

/-! ### `composers/simple_arranger.py` -/

/-- The `variation` local of `_get_note_duration_ticks`:
`int(ticks * 0.05 * (random.random() - 0.5))` with
`ticks = int(duration_beats * 480)`. -/
def tick_variation (duration_beats : ℚ) (r : ℚ) : ℤ :=
  pyTrunc ((pyTrunc (duration_beats * 480) : ℚ) * 0.05 * (r - 0.5))

/-- `SimpleArranger._get_note_duration_ticks`: `int(duration_beats * 480)`,
plus the `variation` jitter, floored at 1 via `max(1, ...)`. -/
def get_note_duration_ticks (duration_beats : ℚ) (r : ℚ) : ℤ :=
  max 1 (pyTrunc (duration_beats * 480) + tick_variation duration_beats r)

/-- `SimpleArranger._calculate_structure_factor`. -/
def calculate_structure_factor (current_time_ticks total_ticks : ℤ) : ℚ :=
  if total_ticks = 0 then 1
  else
    let progress : ℚ := (current_time_ticks : ℚ) / (total_ticks : ℚ)
    if progress < 0.15 then 0.6 + (progress / 0.15) * 0.4
    else if progress < 0.70 then 1
    else if progress < 0.90 then 1 + ((progress - 0.70) / 0.20) * 0.2
    else 1.2 - ((progress - 0.90) / 0.10) * 0.5

/-- One element of the heterogeneous `notes_data` list `add_track` receives:
a bare int, a (pitch, duration) pair, a (pitch, duration, velocity) triple
(longer tuples use their first three entries), or any other object
(`junk`), which the emit loop skips with `continue`. -/
inductive NoteItem where
  | bare (note : ℤ)
  | pair (note : ℤ) (duration_beats : ℚ)
  | triple (note : ℤ) (duration_beats : ℚ) (velocity : ℚ)
  | junk
  deriving DecidableEq, Repr

/-- Contribution of an item to `total_duration_beats` (tuples contribute
`item[1]`, everything else 1.0). -/
def itemBeats : NoteItem → ℚ
  | .bare _ => 1
  | .pair _ d => d
  | .triple _ d _ => d
  | .junk => 1

/-- The (note, duration, velocity) parse of the emit loop; `none` is the
`continue` branch. -/
def parseItem : NoteItem → Option (ℤ × ℚ × ℚ)
  | .bare n => some (n, 1, 100)
  | .pair n d => some (n, d, 100)
  | .triple n d v => some (n, d, v)
  | .junk => none

/-- The pitch carried by an item, if any. -/
def itemNote : NoteItem → Option ℤ
  | .bare n => some n
  | .pair n _ => some n
  | .triple n _ _ => some n
  | .junk => none

/-- One emitted note of `add_track`: a `note_on` with `final_velocity`
followed by a `note_off` after `duration_ticks`. -/
structure NoteEvent where
  note : ℤ
  velocity : ℤ
  duration_ticks : ℤ
  deriving DecidableEq, Repr

/-- The per-note emit loop of `SimpleArranger.add_track`. -/
def addTrackGo (total_ticks : ℤ) :
    List NoteItem → ℤ → RNG → List NoteEvent
  | [], _, _ => []
  | item :: rest, current_time_ticks, g =>
    match parseItem item with
    | none => addTrackGo total_ticks rest current_time_ticks g
    | some (note, duration_beats, velocity) =>
      let duration_ticks := get_note_duration_ticks duration_beats (g.q 0)
      let structure_factor :=
        calculate_structure_factor current_time_ticks total_ticks
      let final_velocity := pyTrunc (min 127 (max 1 (velocity * structure_factor)))
      ⟨note, final_velocity, duration_ticks⟩ ::
        addTrackGo total_ticks rest (current_time_ticks + duration_ticks) g.tail

/-- `SimpleArranger.add_track`, note-event part (track-name and
program-change meta messages are outside the embedded core). -/
def add_track (notes_data : List NoteItem) (g : RNG) : List NoteEvent :=
  if 0 < notes_data.length then
    let total_duration_beats := (notes_data.map itemBeats).sum
    let total_ticks := pyTrunc (total_duration_beats * 480)
    addTrackGo total_ticks notes_data 0 g
  else []

/-- Round-half-up rounding, the spec side's `round(...)`. -/
def roundQ (x : ℚ) : ℤ := ⌊x + 1/2⌋

/-- Modelled from the spec: "Converts beat duration to integer tick count
via round(duration_beats * ticks_per_beat), then applies ±5% uniform jitter
(humanization), floored at 1 tick" — the result must be `round(d*480)` plus
some jitter of magnitude at most 5% of it, floored at 1. -/
def specTickOk (duration_beats : ℚ) (result : ℤ) : Prop :=
  ∃ j : ℚ, |j| ≤ (roundQ (duration_beats * 480) : ℚ) * 0.05 ∧
    (result : ℚ) = max 1 ((roundQ (duration_beats * 480) : ℚ) + j)

/-- Truncation toward zero never increases the magnitude. -/
theorem abs_pyTrunc_le (x : ℚ) : |(pyTrunc x : ℚ)| ≤ |x| := by
  unfold pyTrunc
  split_ifs with h
  · rw [abs_of_nonneg h, abs_of_nonneg]
    · exact Int.floor_le x
    · exact_mod_cast Int.floor_nonneg.mpr h
  · push_neg at h
    rw [abs_of_neg h, abs_of_nonpos]
    · linarith [Int.le_ceil x]
    · have : ⌈x⌉ ≤ (0 : ℤ) := Int.ceil_le.mpr (by exact_mod_cast h.le)
      exact_mod_cast this

/-- C4 (amended form): the tick conversion truncates (`int`, not `round`)
and the jitter term is `int(ticks * 0.05 * (r - 0.5))`, whose magnitude is
at most 2.5 percent of the truncated tick count; the result is floored at
1 tick. -/
theorem C4_tick_conversion_amended (duration_beats r : ℚ)
    (hd : 0 ≤ duration_beats) (hr0 : 0 ≤ r) (hr1 : r < 1) :
    get_note_duration_ticks duration_beats r =
      max 1 (pyTrunc (duration_beats * 480) + tick_variation duration_beats r) ∧
    |(tick_variation duration_beats r : ℚ)| ≤
      (pyTrunc (duration_beats * 480) : ℚ) * (1/40) := by
  constructor
  · rfl
  · have ht : (0 : ℚ) ≤ (pyTrunc (duration_beats * 480) : ℚ) := by
      unfold pyTrunc
      rw [if_pos (by positivity)]
      exact_mod_cast Int.floor_nonneg.mpr (by positivity)
    have habs := abs_pyTrunc_le
      ((pyTrunc (duration_beats * 480) : ℚ) * 0.05 * (r - 0.5))
    have hr : |r - 0.5| ≤ 1/2 := by
      rw [abs_le]; constructor <;> [linarith; linarith]
    calc |(tick_variation duration_beats r : ℚ)|
        ≤ |(pyTrunc (duration_beats * 480) : ℚ) * 0.05 * (r - 0.5)| := habs
      _ = (pyTrunc (duration_beats * 480) : ℚ) * 0.05 * |r - 0.5| := by
          rw [abs_mul, abs_of_nonneg (by positivity)]
      _ ≤ (pyTrunc (duration_beats * 480) : ℚ) * 0.05 * (1/2) := by
          apply mul_le_mul_of_nonneg_left hr (by positivity)
      _ = (pyTrunc (duration_beats * 480) : ℚ) * (1/40) := by ring

/-- C4 witness: a one-beat note and the centered random draw. -/
theorem C4_tick_conversion_witness :
    (get_note_duration_ticks 1 (1/2) =
      max 1 (pyTrunc ((1 : ℚ) * 480) + tick_variation 1 (1/2)) ∧
     |(tick_variation 1 (1/2) : ℚ)| ≤ (pyTrunc ((1 : ℚ) * 480) : ℚ) * (1/40)) :=
  C4_tick_conversion_amended 1 (1/2) (by norm_num) (by norm_num) (by norm_num)

/-- C4 counterexample: for a duration of 9/400 beats (10.8 ticks), the code
returns 10 ticks at the centered random draw, but the claim's
"round, then add at most ±5% jitter, floored at 1" only allows results
within 0.55 ticks of round(10.8) = 11, ruling 10 out. -/
theorem C4_tick_conversion_counterexample :
    get_note_duration_ticks (9/400) (1/2) = 10 ∧ ¬ specTickOk (9/400) 10 := by
  have hbase : pyTrunc ((9/400 : ℚ) * 480) = 10 := by
    unfold pyTrunc
    rw [if_pos (by norm_num)]
    norm_num
  constructor
  · unfold get_note_duration_ticks tick_variation
    rw [hbase]
    have hv : pyTrunc (((10 : ℤ) : ℚ) * 0.05 * ((1:ℚ)/2 - 0.5)) = 0 := by
      norm_num [pyTrunc]
    rw [hv]
    norm_num
  · rintro ⟨j, hj, he⟩
    have hround : roundQ ((9/400 : ℚ) * 480) = 11 := by
      unfold roundQ
      norm_num
    rw [hround] at hj he
    have hj' : -(11/20 : ℚ) ≤ j ∧ j ≤ 11/20 := abs_le.mp (by
      calc |j| ≤ (11 : ℚ) * 0.05 := hj
        _ = 11/20 := by norm_num)
    rw [max_eq_right (by push_cast; linarith [hj'.1])] at he
    push_cast at he
    linarith [hj'.1]

/-- The final velocity formula always lands in `[1, 127]`. -/
theorem finalVelocity_mem (x : ℚ) :
    1 ≤ pyTrunc (min 127 (max 1 x)) ∧ pyTrunc (min 127 (max 1 x)) ≤ 127 := by
  have h1 : (1 : ℚ) ≤ min 127 (max 1 x) := le_min (by norm_num) (le_max_left 1 x)
  have h2 : min 127 (max 1 x) ≤ (127 : ℚ) := min_le_left _ _
  have hpy : pyTrunc (min 127 (max 1 x)) = ⌊min 127 (max 1 x)⌋ := by
    unfold pyTrunc
    rw [if_pos (by linarith)]
  constructor
  · rw [hpy]
    exact_mod_cast Int.le_floor.mpr (by exact_mod_cast h1)
  · rw [hpy]
    have hle : ⌊min 127 (max 1 x)⌋ ≤ ⌊(127 : ℚ)⌋ := Int.floor_le_floor h2
    have h127 : ⌊(127 : ℚ)⌋ = 127 := by norm_num
    omega

/-- The emitted duration is always at least one tick. -/
theorem duration_ticks_pos (d r : ℚ) : 1 ≤ get_note_duration_ticks d r :=
  le_max_left 1 _

/-- Per-event invariants of the emit loop: velocity in `[1,127]`, duration
at least one tick, and the pitch passed through from some input item. -/
theorem addTrackGo_spec (total_ticks : ℤ) :
    ∀ (items : List NoteItem) (current : ℤ) (g : RNG),
    ∀ e ∈ addTrackGo total_ticks items current g,
      1 ≤ e.velocity ∧ e.velocity ≤ 127 ∧ 1 ≤ e.duration_ticks ∧
      ∃ item ∈ items, itemNote item = some e.note := by
  intro items
  induction items with
  | nil => intro current g e he; simp [addTrackGo] at he
  | cons item rest ih =>
    intro current g e he
    match hp : parseItem item with
    | none =>
      rw [addTrackGo, hp] at he
      obtain ⟨h1, h2, h3, it, hit, hn⟩ := ih _ _ e he
      exact ⟨h1, h2, h3, it, List.mem_cons_of_mem item hit, hn⟩
    | some (note, duration_beats, velocity) =>
      rw [addTrackGo, hp] at he
      rcases List.mem_cons.mp he with hcase | hcase
      · subst hcase
        refine ⟨(finalVelocity_mem _).1, (finalVelocity_mem _).2,
          duration_ticks_pos _ _, item, List.mem_cons_self item rest, ?_⟩
        match item, hp with
        | .bare n, hp => cases hp; rfl
        | .pair n d, hp => cases hp; rfl
        | .triple n d v, hp => cases hp; rfl
      · obtain ⟨h1, h2, h3, it, hit, hn⟩ := ih _ _ e hcase
        exact ⟨h1, h2, h3, it, List.mem_cons_of_mem item hit, hn⟩

/-- C5 (amended form): every event emitted by `add_track` has a velocity in
`[1,127]` and a duration of at least one tick, and its pitch is exactly the
pitch of an input item — passed through without any clipping. -/
theorem C5_track_invariants_amended (notes_data : List NoteItem) (g : RNG)
    (e : NoteEvent) (he : e ∈ add_track notes_data g) :
    1 ≤ e.velocity ∧ e.velocity ≤ 127 ∧ 1 ≤ e.duration_ticks ∧
    ∃ item ∈ notes_data, itemNote item = some e.note := by
  unfold add_track at he
  split_ifs at he with h
  · exact addTrackGo_spec _ notes_data 0 g e he
  · simp at he

/-- A concrete constant random source: `random()` always 1/2, indices 0. -/
def constRNG : RNG := ⟨fun _ => 1/2, fun _ => 0⟩

/-- Evaluation of `add_track` on one (pitch, 1 beat, velocity 100) triple
under the constant random source: 480 ticks, envelope factor 0.6, final
velocity 60, pitch passed through. -/
theorem add_track_triple_eval (p : ℤ) :
    add_track [NoteItem.triple p 1 100] constRNG = [⟨p, 60, 480⟩] := by
  have hticks : pyTrunc ((1 : ℚ) * 480) = 480 := by
    unfold pyTrunc
    rw [if_pos (by norm_num)]
    norm_num
  have hvar : tick_variation 1 (constRNG.q 0) = 0 := by
    unfold tick_variation constRNG
    rw [hticks]
    norm_num [pyTrunc]
  have hdur : get_note_duration_ticks 1 (constRNG.q 0) = 480 := by
    unfold get_note_duration_ticks
    rw [hticks, hvar]
    norm_num
  have hfac : calculate_structure_factor 0 480 = 0.6 := by
    unfold calculate_structure_factor
    rw [if_neg (by norm_num)]
    norm_num
  have hvel : pyTrunc (min 127 (max 1 ((100 : ℚ) * 0.6))) = 60 := by
    have : min (127 : ℚ) (max 1 (100 * 0.6)) = 60 := by
      rw [max_eq_right (by norm_num), min_eq_right (by norm_num)]
      norm_num
    rw [this]
    unfold pyTrunc
    rw [if_pos (by norm_num)]
    norm_num
  unfold add_track
  rw [if_pos (by norm_num)]
  show addTrackGo (pyTrunc ((List.map itemBeats [NoteItem.triple p 1 100]).sum * 480))
      [NoteItem.triple p 1 100] 0 constRNG = [⟨p, 60, 480⟩]
  have hsum : (List.map itemBeats [NoteItem.triple p 1 100]).sum = 1 := by
    simp [itemBeats]
  rw [hsum, hticks]
  rw [addTrackGo]
  simp only [parseItem]
  rw [hdur, hfac, hvel, addTrackGo]

/-- C5 witness: a single (pitch 60, 1 beat, velocity 100) triple under the
constant random source. -/
theorem C5_track_invariants_witness :
    1 ≤ (NoteEvent.mk 60 60 480).velocity ∧
    (NoteEvent.mk 60 60 480).velocity ≤ 127 ∧
    1 ≤ (NoteEvent.mk 60 60 480).duration_ticks ∧
    ∃ item ∈ [NoteItem.triple 60 1 100],
      itemNote item = some (NoteEvent.mk 60 60 480).note :=
  C5_track_invariants_amended [NoteItem.triple 60 1 100] constRNG
    ⟨60, 60, 480⟩ (by rw [add_track_triple_eval]; exact List.mem_singleton.mpr rfl)

/-- C5 counterexample: a generator pitch of 200 is emitted verbatim — the
arranger performs no clipping of pitches into 0..127. -/
theorem C5_track_invariants_counterexample :
    add_track [NoteItem.triple 200 1 100] constRNG =
      [NoteEvent.mk 200 60 480] ∧
    ¬ ((NoteEvent.mk 200 60 480).note ≤ 127) := by
  refine ⟨add_track_triple_eval 200, by norm_num⟩

/-! ### `generators/rhythm.py` -/

/-- `RhythmPattern` enum, in definition order (that order is
`list(RhythmPattern)`). -/
inductive RhythmPattern where
  | STEADY_QUARTERS | STEADY_EIGHTHS | HALF_QUARTER
  | SYNCOPATED_8 | SYNCOPATED_16 | ANTICIPATION
  | ROCK_BEAT | DISCO | HIP_HOP | HOUSE
  | SWING_EIGHTHS | JAZZ_COMP | BOSSA_NOVA
  | SAMBA | SALSA
  | TECHNO | TRANCE | DUBSTEP
  deriving DecidableEq, Repr

/-- `list(RhythmPattern)`. -/
def allRhythmPatterns : List RhythmPattern :=
  [.STEADY_QUARTERS, .STEADY_EIGHTHS, .HALF_QUARTER,
   .SYNCOPATED_8, .SYNCOPATED_16, .ANTICIPATION,
   .ROCK_BEAT, .DISCO, .HIP_HOP, .HOUSE,
   .SWING_EIGHTHS, .JAZZ_COMP, .BOSSA_NOVA,
   .SAMBA, .SALSA, .TECHNO, .TRANCE, .DUBSTEP]

/-- The `RHYTHM_PATTERNS` dict. It has an entry for every enum member, so
the `.get(..., [1.0]*4)` default in `generate` can never be produced. -/
def RHYTHM_PATTERNS : RhythmPattern → List ℚ
  | .STEADY_QUARTERS => [1, 1, 1, 1]
  | .STEADY_EIGHTHS => List.replicate 8 0.5
  | .HALF_QUARTER => [2, 1, 1]
  | .SYNCOPATED_8 => [1, 0.5, 0.5, 1, 1]
  | .SYNCOPATED_16 => [0.5, 0.25, 0.25, 0.5, 0.5, 0.5, 0.5, 0.5, 0.5]
  | .ANTICIPATION => [0.5, 0.5, 1, 0.5, 0.5, 1]
  | .ROCK_BEAT => [0.5, 0.5, 0.5, 0.5, 0.5, 0.5, 0.5, 0.5]
  | .DISCO => [0.5, 0.5, 0.25, 0.25, 0.5, 0.5, 0.5, 0.5, 0.25, 0.25]
  | .HIP_HOP => [0.5, 0.5, 0.5, 0.25, 0.25, 0.5, 0.5, 0.5, 0.5]
  | .HOUSE => List.replicate 16 0.25
  | .SWING_EIGHTHS => [0.66, 0.33, 0.66, 0.33, 0.66, 0.33, 0.66, 0.33]
  | .JAZZ_COMP => [1, 0.5, 0.5, 1, 0.5, 0.5]
  | .BOSSA_NOVA => [0.5, 0.5, 0.5, 0.25, 0.25, 0.5, 0.5, 0.5]
  | .SAMBA => [0.5, 0.5, 0.25, 0.25, 0.5, 0.25, 0.25, 0.5, 0.25, 0.25]
  | .SALSA => [0.5, 0.5, 0.5, 0.5, 0.25, 0.25, 0.5, 0.5]
  | .TECHNO => List.replicate 16 0.25
  | .TRANCE => List.replicate 16 0.25
  | .DUBSTEP => [1, 0.25, 0.75, 1, 0.5, 0.5, 0.25, 0.25, 0.5]

/-- The truncation ("过多则截断") branch of `_normalize_to_bars`: keep
durations while they fit, then pad with the exact remainder and stop. -/
def trimToBudget (total_beats : ℚ) : List ℚ → ℚ → List ℚ
  | [], _ => []
  | dur :: rest, current =>
    if current + dur ≤ total_beats then
      dur :: trimToBudget total_beats rest (current + dur)
    else if 0 < total_beats - current then [total_beats - current] else []

/-- `RhythmStrategy._normalize_to_bars`: all-zero input becomes quarter
notes, a short list is padded with copies of its last duration
(`ZeroDivisionError`, i.e. `none`, when that last duration is 0), a long
list is trimmed to the exact beat budget. -/
def normalize_to_bars (beats_per_bar : ℕ) (durations : List ℚ)
    (num_bars : ℕ) : Option (List ℚ) :=
  let total_beats : ℚ := ((num_bars * beats_per_bar : ℕ) : ℚ)
  let current_total := durations.sum
  if current_total = 0 then some (List.replicate (num_bars * beats_per_bar) 1)
  else if current_total < total_beats then
    let last_duration := durations.getLastD 1
    if last_duration = 0 then none
    else some (durations ++ List.replicate
      (pyTrunc ((total_beats - current_total) / last_duration)).toNat
      last_duration)
  else if total_beats < current_total then
    some (trimToBudget total_beats durations 0)
  else some durations

/-- `PatternBasedRhythmStrategy.generate`. The first component is the
returned duration list; the second is the value of the `self.pattern`
field after the call (the method assigns `self.pattern` when it was
`None`). -/
def patternRhythmGenerate (self_pattern : Option RhythmPattern)
    (beats_per_bar : ℕ) (num_bars : ℕ) (g : RNG) :
    Option (List ℚ) × Option RhythmPattern :=
  let pattern :=
    match self_pattern with
    | none => (pyChoice allRhythmPatterns RhythmPattern.STEADY_QUARTERS g).1
    | some p => p
  let base_pattern := RHYTHM_PATTERNS pattern
  let pattern_beats := base_pattern.sum
  if pattern_beats = 0 then (none, some pattern)
  else
    let repetitions :=
      (pyTrunc (((num_bars * beats_per_bar : ℕ) : ℚ) / pattern_beats)).toNat + 1
    let durations := List.flatten (List.replicate repetitions base_pattern)
    (normalize_to_bars beats_per_bar durations num_bars, some pattern)

/-- `SwingRhythmStrategy.generate`: each of the `total_beats` beats split
into a long and a short part. -/
def swingRhythmGenerate (beats_per_bar : ℕ) (swingAmount : ℚ)
    (num_bars : ℕ) : List ℚ :=
  List.flatten (List.replicate (num_bars * beats_per_bar)
    [swingAmount, 1 - swingAmount])

/-- The `style_patterns` dict of `GrooveRhythmStrategy.generate`, with the
`.get` default `STEADY_QUARTERS`. -/
def stylePattern (style : String) : RhythmPattern :=
  if style = "rock" then .ROCK_BEAT
  else if style = "disco" then .DISCO
  else if style = "hiphop" then .HIP_HOP
  else if style = "house" then .HOUSE
  else if style = "techno" then .TECHNO
  else if style = "trance" then .TRANCE
  else if style = "jazz" then .SWING_EIGHTHS
  else if style = "bossa" then .BOSSA_NOVA
  else if style = "samba" then .SAMBA
  else if style = "salsa" then .SALSA
  else if style = "dubstep" then .DUBSTEP
  else .STEADY_QUARTERS

/-- `GrooveRhythmStrategy.generate`: style (lower-cased at construction)
mapped to a pattern, then delegated to a pattern strategy with that
pattern set. -/
def grooveRhythmGenerate (beats_per_bar : ℕ) (style : String)
    (num_bars : ℕ) (g : RNG) : Option (List ℚ) :=
  (patternRhythmGenerate (some (stylePattern style.toLower))
    beats_per_bar num_bars g).1

/-- The fill-to-budget loop of `RandomRhythmStrategy.generate`. The fuel
argument bounds the iterations (the Python loop would not terminate when
every allowed duration is nonpositive; with the default duration set every
iteration advances by at least 0.5 beats). `random.choice` on an empty
allowed list is an error (`none`). -/
def randomRhythmLoop (allowed : List ℚ) (total_beats : ℚ) :
    ℕ → ℚ → RNG → Option (List ℚ)
  | 0, current, _ => if current < total_beats then none else some []
  | fuel + 1, current, g =>
    if current < total_beats then
      if allowed.isEmpty then none
      else
        let (duration, g1) := pyChoice allowed 1 g
        let remaining := total_beats - current
        if remaining < duration then
          let smaller_options := allowed.filter (fun d => d ≤ remaining)
          if smaller_options.isEmpty then
            (randomRhythmLoop allowed total_beats fuel (current + remaining) g1).map
              (remaining :: ·)
          else
            let (d2, g2) := pyChoice smaller_options 1 g1
            (randomRhythmLoop allowed total_beats fuel (current + d2) g2).map
              (d2 :: ·)
        else
          (randomRhythmLoop allowed total_beats fuel (current + duration) g1).map
            (duration :: ·)
    else some []

/-- `RandomRhythmStrategy.generate`. -/
def randomRhythmGenerate (beats_per_bar : ℕ) (allowed : List ℚ)
    (num_bars : ℕ) (g : RNG) : Option (List ℚ) :=
  randomRhythmLoop allowed ((num_bars * beats_per_bar : ℕ) : ℚ)
    (8 * num_bars * beats_per_bar + 1) 0 g

/-- `HybridRhythmStrategy.generate` with the default strategy pair
(pattern tiling of STEADY_QUARTERS, then random fill with the default
allowed durations): first half bars from the first strategy, the rest from
the second. -/
def hybridRhythmGenerate (beats_per_bar : ℕ) (num_bars : ℕ) (g : RNG) :
    Option (List ℚ) :=
  let first_half_bars := num_bars / 2
  let second_half_bars := num_bars - first_half_bars
  match (patternRhythmGenerate (some .STEADY_QUARTERS) beats_per_bar
      first_half_bars g).1 with
  | none => none
  | some first_rhythm =>
    match randomRhythmGenerate beats_per_bar [0.5, 1.0, 1.5, 2.0]
        second_half_bars g with
    | none => none
    | some second_rhythm => some (first_rhythm ++ second_rhythm)

/-- C9 counterexample: a pattern rhythm strategy built with
`pattern = None` does not keep that field unchanged — one `generate` call
stores the randomly selected pattern in it. -/
theorem C9_pattern_field_counterexample :
    (patternRhythmGenerate none 4 1 constRNG).2 =
      some RhythmPattern.STEADY_QUARTERS ∧
    some RhythmPattern.STEADY_QUARTERS ≠ (none : Option RhythmPattern) := by
  constructor
  · simp [patternRhythmGenerate, apply_ite Prod.snd, pyChoice,
      allRhythmPatterns, constRNG]
  · simp

/-- C9 (amended form): `generate` leaves an already-set `pattern` field
unchanged, but when the field is `None` it overwrites it with the randomly
selected pattern, which then persists across all later calls. -/
theorem C9_pattern_field_amended :
    (∀ (p : RhythmPattern) (bpb num_bars : ℕ) (g : RNG),
      (patternRhythmGenerate (some p) bpb num_bars g).2 = some p) ∧
    (∀ (bpb num_bars : ℕ) (g : RNG), ∃ p : RhythmPattern,
      (patternRhythmGenerate none bpb num_bars g).2 = some p ∧
      ∀ (bpb2 num_bars2 : ℕ) (g2 : RNG),
        (patternRhythmGenerate (some p) bpb2 num_bars2 g2).2 = some p) := by
  constructor
  · intro p bpb n g
    simp [patternRhythmGenerate, apply_ite Prod.snd]
  · intro bpb n g
    refine ⟨(pyChoice allRhythmPatterns RhythmPattern.STEADY_QUARTERS g).1, ?_, ?_⟩
    · simp [patternRhythmGenerate, apply_ite Prod.snd]
    · intro bpb2 n2 g2
      simp [patternRhythmGenerate, apply_ite Prod.snd]

/-! ### `generators/harmony.py`: DiatonicStrategy -/

/-- The `diatonic_chords` list precomputed in `DiatonicStrategy.__init__`
(degrees 1..7, default `quality_type="major"`). -/
def diatonic_chords (key : Key) : List Chord :=
  (List.range 7).map (fun i => get_diatonic_chord (i + 1) key "major")

/-- Root pitch of the diatonic chord at list index `idx`:
`chord.get_midi_notes(key)[0]`. -/
def diatonicRootNote (key : Key) (idx : ℕ) : ℤ :=
  (((diatonic_chords key).getD idx cdum).get_midi_notes key 4).headD 0

/-- The chord-index draw of one loop iteration of
`DiatonicStrategy.generate`: with `avoid_repetition`, a uniform choice over
the indices 0..6 other than the previous one, else `randint(0, 6)`. -/
def pickChordIndex (avoid_repetition : Bool) (last_chord_index : ℤ)
    (g : RNG) : ℕ × RNG :=
  if avoid_repetition then
    pyChoice ((List.range 7).filter (fun i => (i : ℤ) ≠ last_chord_index)) 0 g
  else
    let (k, g') := pyRandint 0 6 g
    (k.toNat, g')

/-- The `while current_beat < total_beats` loop of
`DiatonicStrategy.generate`. One fuel unit per iteration; every iteration
advances `current_beat` by at least half a beat, so `2 * total_beats`
fuel always suffices (proved below). `none` is fuel exhaustion, which the
termination theorem rules out. Random consumption per iteration:
`random.random()` for the density roll, then (on a hit) one draw for the
chord index and one for the duration. -/
def diatonicLoop (key : Key) (total_beats density : ℚ)
    (avoid_repetition : Bool) :
    ℕ → ℚ → ℤ → RNG → Option (List (ℤ × ℚ) × RNG)
  | 0, current_beat, _, g =>
    if current_beat < total_beats then none else some ([], g)
  | fuel + 1, current_beat, last_chord_index, g =>
    if current_beat < total_beats then
      if (pyRandom g).1 < density then
        let g1 := (pyRandom g).2
        let chord_index := (pickChordIndex avoid_repetition last_chord_index g1).1
        let g2 := (pickChordIndex avoid_repetition last_chord_index g1).2
        let root_note := diatonicRootNote key chord_index
        let duration0 := (pyChoice [(0.5 : ℚ), 1.0, 2.0, 4.0] 1 g2).1
        let g3 := (pyChoice [(0.5 : ℚ), 1.0, 2.0, 4.0] 1 g2).2
        let remaining := total_beats - current_beat
        let duration := min duration0 remaining
        match diatonicLoop key total_beats density avoid_repetition fuel
            (current_beat + duration) (chord_index : ℤ) g3 with
        | none => none
        | some (rest, g') => some ((root_note, duration) :: rest, g')
      else
        diatonicLoop key total_beats density avoid_repetition fuel
          (current_beat + 0.5) last_chord_index (pyRandom g).2
    else some ([], g)

/-- The final cadence rewrite of `DiatonicStrategy.generate`: when a
cadence pattern with at least two entries is given and at least two chords
were produced, replace the roots of the last two entries (`none` is an
`IndexError` on an out-of-range cadence degree). -/
def applyCadencePattern (key : Key) (cadence_pattern : Option (List ℤ))
    (result : List (ℤ × ℚ)) : Option (List (ℤ × ℚ)) :=
  match cadence_pattern with
  | none => some result
  | some cp =>
    if 2 ≤ cp.length then
      if 2 ≤ result.length then
        match pyListGet (diatonic_chords key) (cp.getD 0 0 - 1),
              pyListGet (diatonic_chords key) (cp.getD 1 0 - 1) with
        | some ch0, some ch1 =>
          some (result.take (result.length - 2) ++
            [((ch0.get_midi_notes key 4).headD 0,
              (result.getD (result.length - 2) (0, 0)).2),
             ((ch1.get_midi_notes key 4).headD 0,
              (result.getD (result.length - 1) (0, 0)).2)])
        | _, _ => none
      else some result
    else some result

/-- `DiatonicStrategy.generate`. -/
def diatonicGenerate (key : Key) (beats_per_bar num_bars : ℕ)
    (density : ℚ) (avoid_repetition : Bool)
    (cadence_pattern : Option (List ℤ)) (g : RNG) :
    Option (List (ℤ × ℚ) × RNG) :=
  match diatonicLoop key ((num_bars * beats_per_bar : ℕ) : ℚ) density
      avoid_repetition (2 * (num_bars * beats_per_bar)) 0 (-1) g with
  | none => none
  | some (result, g') =>
    match applyCadencePattern key cadence_pattern result with
    | none => none
    | some result' => some (result', g')

/-- Any duration drawn from `[0.5, 1.0, 2.0, 4.0]` is `k/2` for a positive
natural `k`. -/
theorem duration_choice_half (n : ℕ) :
    ∃ k : ℕ, 1 ≤ k ∧
      (([(0.5 : ℚ), 1.0, 2.0, 4.0]).getD (n % 4) 1) = (k : ℚ) / 2 := by
  have h4 : n % 4 < 4 := Nat.mod_lt n (by norm_num)
  set m := n % 4 with hm
  interval_cases m
  · exact ⟨1, by norm_num, by norm_num [List.getD]⟩
  · exact ⟨2, by norm_num, by norm_num [List.getD]⟩
  · exact ⟨4, by norm_num, by norm_num [List.getD]⟩
  · exact ⟨8, by norm_num, by norm_num [List.getD]⟩

/-- Comparing a half-integer with an integer bound. -/
theorem half_lt_iff (c N : ℕ) : ((c : ℚ) / 2 < (N : ℚ)) ↔ c < 2 * N := by
  rw [div_lt_iff₀ (by norm_num : (0:ℚ) < 2)]
  norm_cast
  omega

/-- The remaining budget in half-beat units. -/
theorem remaining_eq_half (c N : ℕ) (h : c ≤ 2 * N) :
    (N : ℚ) - (c : ℚ) / 2 = ((2 * N - c : ℕ) : ℚ) / 2 := by
  rw [Nat.cast_sub h]
  push_cast
  ring

/-- Minima of half-integers are half-integers. -/
theorem min_halves (a b : ℕ) :
    min ((a : ℚ) / 2) ((b : ℚ) / 2) = ((min a b : ℕ) : ℚ) / 2 := by
  rcases le_total a b with h | h
  · rw [min_eq_left (by gcongr), min_eq_left h]
  · rw [min_eq_right (by gcongr), min_eq_right h]

/-- C10 core: the diatonic harmony loop terminates within its fuel — with
`current_beat = c/2` half-beats consumed and at least `2N - c` fuel units
left, the loop always returns (each iteration advances `current_beat` by
exactly 0.5 when no chord is emitted and by `min(duration, remaining) ≥
0.5` when one is). -/
theorem diatonicLoop_terminates (key : Key) (N : ℕ) (density : ℚ)
    (avoid_repetition : Bool) :
    ∀ (fuel c : ℕ) (last : ℤ) (g : RNG), 2 * N ≤ c + fuel →
      ∃ res, diatonicLoop key (N : ℚ) density avoid_repetition fuel
        ((c : ℚ) / 2) last g = some res := by
  intro fuel
  induction fuel with
  | zero =>
    intro c last g hc
    rw [diatonicLoop, if_neg (by rw [half_lt_iff]; omega)]
    exact ⟨([], g), rfl⟩
  | succ fuel ih =>
    intro c last g hc
    simp only [diatonicLoop]
    by_cases hcond : ((c : ℚ) / 2) < (N : ℚ)
    · rw [if_pos hcond]
      have hclt : c < 2 * N := (half_lt_iff c N).mp hcond
      by_cases hr : (pyRandom g).1 < density
      · rw [if_pos hr]
        obtain ⟨k, hk1, hkval⟩ := duration_choice_half
          ((pickChordIndex avoid_repetition last (pyRandom g).2).2.n 0)
        have hchoice : (pyChoice [(0.5 : ℚ), 1.0, 2.0, 4.0] 1
            (pickChordIndex avoid_repetition last (pyRandom g).2).2).1 =
            (k : ℚ) / 2 := by
          simpa [pyChoice] using hkval
        have harg : (c : ℚ) / 2 +
            min ((pyChoice [(0.5 : ℚ), 1.0, 2.0, 4.0] 1
              (pickChordIndex avoid_repetition last (pyRandom g).2).2).1)
              ((N : ℚ) - (c : ℚ) / 2) =
            ((c + min k (2 * N - c) : ℕ) : ℚ) / 2 := by
          rw [hchoice, remaining_eq_half c N hclt.le, min_halves]
          push_cast
          ring
        obtain ⟨res, hres⟩ := ih (c + min k (2 * N - c))
          ((pickChordIndex avoid_repetition last (pyRandom g).2).1 : ℤ)
          ((pyChoice [(0.5 : ℚ), 1.0, 2.0, 4.0] 1
            (pickChordIndex avoid_repetition last (pyRandom g).2).2).2)
          (by omega)
        rw [harg, hres]
        exact ⟨_, rfl⟩
      · rw [if_neg hr]
        have h05 : (c : ℚ) / 2 + 0.5 = ((c + 1 : ℕ) : ℚ) / 2 := by
          push_cast
          norm_num
          ring
        rw [h05]
        exact ih (c + 1) last (pyRandom g).2 (by omega)
    · rw [if_neg hcond]
      exact ⟨([], g), rfl⟩

/-- C10: for every number of bars (at 4 beats per bar or any other bar
length), every density, every avoid_repetition flag and every random
source, `DiatonicStrategy.generate` terminates: the loop budget of two
iterations per beat is always enough, and the cadence-free final rewrite
succeeds, so `generate` returns a result. -/
theorem C10_diatonic_generate_terminates (key : Key)
    (beats_per_bar num_bars : ℕ) (density : ℚ) (avoid_repetition : Bool)
    (g : RNG) :
    ∃ out, diatonicGenerate key beats_per_bar num_bars density
      avoid_repetition none g = some out := by
  obtain ⟨⟨result, g'⟩, hres⟩ := diatonicLoop_terminates key
    (num_bars * beats_per_bar) density avoid_repetition
    (2 * (num_bars * beats_per_bar)) 0 (-1) g (by omega)
  rw [show (((0:ℕ) : ℚ) / 2) = (0 : ℚ) by norm_num] at hres
  unfold diatonicGenerate
  rw [hres]
  exact ⟨(result, g'), rfl⟩

/-- With `avoid_repetition`, the drawn chord index is one of 0..6 and
differs from the previous index. -/
theorem pickChordIndex_true_spec (last : ℤ) (g : RNG) :
    (pickChordIndex true last g).1 < 7 ∧
    ((pickChordIndex true last g).1 : ℤ) ≠ last := by
  have hmem : (pickChordIndex true last g).1 ∈
      (List.range 7).filter (fun i : ℕ => (i : ℤ) ≠ last) := by
    have hne : (List.range 7).filter (fun i : ℕ => (i : ℤ) ≠ last) ≠ [] := by
      intro hempty
      by_cases h : last = 0
      · have h1 : (1 : ℕ) ∈ (List.range 7).filter (fun i : ℕ => (i : ℤ) ≠ last) := by
          rw [List.mem_filter]
          refine ⟨by simp, by simp [h]⟩
        rw [hempty] at h1
        exact absurd h1 (List.not_mem_nil 1)
      · have h0 : (0 : ℕ) ∈ (List.range 7).filter (fun i : ℕ => (i : ℤ) ≠ last) := by
          rw [List.mem_filter]
          refine ⟨by simp, by simpa using fun e => h e.symm⟩
        rw [hempty] at h0
        exact absurd h0 (List.not_mem_nil 0)
    have hlen : 0 < ((List.range 7).filter (fun i : ℕ => (i : ℤ) ≠ last)).length :=
      List.length_pos.mpr hne
    show ((List.range 7).filter (fun i : ℕ => (i : ℤ) ≠ last)).getD _ 0 ∈ _
    rw [List.getD_eq_getElem _ _ (Nat.mod_lt _ hlen)]
    exact List.getElem_mem _
  rw [List.mem_filter] at hmem
  refine ⟨by simpa using hmem.1, by simpa using hmem.2⟩

/-- Advancing a random source keeps a pointwise stream bound. -/
theorem RNG.tail_lt {g : RNG} {d : ℚ} (h : ∀ j, g.q j < d) :
    ∀ j, g.tail.q j < d := fun j => h (j + 1)

/-- The second component of the chord-index draw is one stream step. -/
theorem pickChordIndex_snd (avoid_repetition : Bool) (last : ℤ) (g : RNG) :
    (pickChordIndex avoid_repetition last g).2 = g.tail := by
  unfold pickChordIndex pyChoice pyRandint
  cases avoid_repetition <;> rfl

/-- Budget bookkeeping of one emitted chord, in half-beat units. -/
theorem emit_sum_eq (c k N : ℕ) (h : c ≤ 2 * N) :
    ((k ⊓ (2 * N - c) : ℕ) : ℚ) / 2 +
      ((N : ℚ) - ((c + k ⊓ (2 * N - c) : ℕ) : ℚ) / 2) =
      ((2 * N - c : ℕ) : ℚ) / 2 := by
  rw [Nat.cast_add, Nat.cast_sub h]
  push_cast
  ring

/-- C6 core: with a density bound satisfied by the whole stream and
`avoid_repetition` on, the loop succeeds, emits a chord at every
iteration (so the durations sum to the full remaining budget), and the
emitted chord indices are 0..6 with no two consecutive indices equal. -/
theorem diatonicLoop_full (key : Key) (N : ℕ) (density : ℚ) :
    ∀ (fuel c : ℕ) (last : ℤ) (g : RNG), 2 * N ≤ c + fuel → c ≤ 2 * N →
      (∀ j, g.q j < density) →
      ∃ (ds : List ℕ) (out : List (ℤ × ℚ)) (g' : RNG),
        diatonicLoop key (N : ℚ) density true fuel ((c : ℚ) / 2) last g =
          some (out, g') ∧
        out.map Prod.fst = ds.map (diatonicRootNote key) ∧
        (out.map Prod.snd).sum = (N : ℚ) - (c : ℚ) / 2 ∧
        (∀ i ∈ ds, i < 7) ∧
        List.Chain (fun a b => a ≠ b) last (ds.map (fun i : ℕ => (i : ℤ))) := by
  intro fuel
  induction fuel with
  | zero =>
    intro c last g hc hcle hq
    have hceq : c = 2 * N := le_antisymm hcle (by omega)
    rw [diatonicLoop, if_neg (by rw [half_lt_iff]; omega)]
    refine ⟨[], [], g, rfl, rfl, ?_, by simp, List.Chain.nil⟩
    subst hceq
    simp
  | succ fuel ih =>
    intro c last g hc hcle hq
    simp only [diatonicLoop]
    by_cases hcond : ((c : ℚ) / 2) < (N : ℚ)
    · rw [if_pos hcond]
      have hclt : c < 2 * N := (half_lt_iff c N).mp hcond
      have hr : (pyRandom g).1 < density := hq 0
      rw [if_pos hr]
      obtain ⟨k, hk1, hkval⟩ := duration_choice_half
        ((pickChordIndex true last (pyRandom g).2).2.n 0)
      have hchoice : (pyChoice [(0.5 : ℚ), 1.0, 2.0, 4.0] 1
          (pickChordIndex true last (pyRandom g).2).2).1 =
          (k : ℚ) / 2 := by
        simpa [pyChoice] using hkval
      have harg : (c : ℚ) / 2 +
          min ((pyChoice [(0.5 : ℚ), 1.0, 2.0, 4.0] 1
            (pickChordIndex true last (pyRandom g).2).2).1)
            ((N : ℚ) - (c : ℚ) / 2) =
          ((c + min k (2 * N - c) : ℕ) : ℚ) / 2 := by
        rw [hchoice, remaining_eq_half c N hclt.le, min_halves]
        push_cast
        ring
      have hg3 : (∀ j, ((pyChoice [(0.5 : ℚ), 1.0, 2.0, 4.0] 1
          (pickChordIndex true last (pyRandom g).2).2).2).q j < density) := by
        have h1 : (pyRandom g).2 = g.tail := rfl
        have h2 := pickChordIndex_snd true last (pyRandom g).2
        have h3 : (pyChoice [(0.5 : ℚ), 1.0, 2.0, 4.0] 1
            (pickChordIndex true last (pyRandom g).2).2).2 =
            (pickChordIndex true last (pyRandom g).2).2.tail := rfl
        rw [h3, h2, h1]
        exact RNG.tail_lt (RNG.tail_lt (RNG.tail_lt hq))
      obtain ⟨ds', out', g'', hloop, hfst, hsum, hbound, hchain⟩ :=
        ih (c + min k (2 * N - c))
          ((pickChordIndex true last (pyRandom g).2).1 : ℤ)
          ((pyChoice [(0.5 : ℚ), 1.0, 2.0, 4.0] 1
            (pickChordIndex true last (pyRandom g).2).2).2)
          (by omega) (by omega) hg3
      obtain ⟨hidx7, hidxne⟩ := pickChordIndex_true_spec last (pyRandom g).2
      rw [harg, hloop]
      refine ⟨(pickChordIndex true last (pyRandom g).2).1 :: ds',
        (diatonicRootNote key (pickChordIndex true last (pyRandom g).2).1,
          min ((pyChoice [(0.5 : ℚ), 1.0, 2.0, 4.0] 1
            (pickChordIndex true last (pyRandom g).2).2).1)
            ((N : ℚ) - (c : ℚ) / 2)) :: out', g'', rfl, ?_, ?_, ?_, ?_⟩
      · simpa using hfst
      · simp only [List.map_cons, List.sum_cons, hsum]
        rw [hchoice, remaining_eq_half c N hclt.le, min_halves]
        exact emit_sum_eq c k N hclt.le
      · intro i hi
        rcases List.mem_cons.mp hi with h | h
        · subst h; exact hidx7
        · exact hbound i h
      · exact List.Chain.cons (fun e => hidxne e.symm) hchain
    · rw [if_neg hcond]
      have hceq : c = 2 * N := by
        rw [half_lt_iff] at hcond
        omega
      refine ⟨[], [], g, rfl, rfl, ?_, by simp, List.Chain.nil⟩
      subst hceq
      simp

/-- Distinct diatonic degrees have distinct root pitches, in every key
(the two-octave scale list is strictly increasing on its first seven
entries). -/
theorem diatonicRootNote_inj (key : Key) :
    ∀ i, i < 7 → ∀ j, j < 7 → i ≠ j →
      diatonicRootNote key i ≠ diatonicRootNote key j := by
  cases key <;> decide

/-- A no-adjacent-repeat chain of chord indices maps to a no-adjacent-repeat
chain of root pitches. -/
theorem chain_to_roots (key : Key) :
    ∀ (ds : List ℕ) (last : ℤ), (∀ i ∈ ds, i < 7) →
    List.Chain (fun a b => a ≠ b) last (ds.map (fun i : ℕ => (i : ℤ))) →
    List.Chain' (fun a b => a ≠ b) (ds.map (diatonicRootNote key)) := by
  intro ds
  induction ds with
  | nil => intro last _ _; simp
  | cons i ds ih =>
    intro last hb hchain
    rw [List.map_cons] at hchain
    obtain ⟨hne, hrest⟩ := List.chain_cons.mp hchain
    cases ds with
    | nil => simp
    | cons j ds2 =>
      rw [List.map_cons] at hrest
      obtain ⟨hne2, _⟩ := List.chain_cons.mp hrest
      have hij : i ≠ j := fun e => hne2 (by rw [e])
      rw [List.map_cons, List.map_cons, List.chain'_cons]
      refine ⟨?_, ?_⟩
      · exact diatonicRootNote_inj key i (hb i (by simp)) j (hb j (by simp)) hij
      · have := ih (i : ℤ) (fun x hx => hb x (List.mem_cons_of_mem _ hx)) hrest
        simpa using this

/-- C6: for every key and every random source (with its floats in `[0,1)`,
which a real `random.random()` guarantees), the Diatonic strategy at
density 1.0 with avoid_repetition on, for 1 bar of 4 beats, returns a
chord sequence whose durations sum to exactly 4.0 beats and in which no
two consecutive entries have the same root (equivalently, by injectivity
of degree roots, no two consecutive entries come from the same scale
degree). -/
theorem C6_diatonic_one_bar (key : Key) (g : RNG) (hg : g.InRange) :
    ∃ out g', diatonicGenerate key 4 1 1 true none g = some (out, g') ∧
      (out.map Prod.snd).sum = 4 ∧
      List.Chain' (fun p q : ℤ × ℚ => p.1 ≠ q.1) out := by
  have hq : ∀ j, g.q j < 1 := fun j => (hg j).2
  obtain ⟨ds, out, g', hloop, hfst, hsum, hbound, hchain⟩ :=
    diatonicLoop_full key (1 * 4) 1 (2 * (1 * 4)) 0 (-1) g
      (by norm_num) (by norm_num) hq
  rw [show (((0:ℕ) : ℚ) / 2) = (0 : ℚ) by norm_num] at hloop
  refine ⟨out, g', ?_, ?_, ?_⟩
  · unfold diatonicGenerate
    rw [hloop]
    rfl
  · rw [hsum]
    norm_num
  · have hch := chain_to_roots key ds (-1) hbound hchain
    rw [← hfst] at hch
    exact (List.chain'_map Prod.fst).mp hch

/-- C6 witness: the constant random source, floats all 1/2. -/
theorem C6_diatonic_one_bar_witness :
    RNG.InRange constRNG ∧
    ∃ out g', diatonicGenerate Key.C_MAJOR 4 1 1 true none constRNG =
        some (out, g') ∧
      (out.map Prod.snd).sum = 4 ∧
      List.Chain' (fun p q : ℤ × ℚ => p.1 ≠ q.1) out := by
  have hin : RNG.InRange constRNG := by
    intro k
    constructor <;> norm_num [constRNG]
  exact ⟨hin, C6_diatonic_one_bar Key.C_MAJOR constRNG hin⟩

/-! ### `generators/melody.py` -/

/-- `MelodyStrategy.__init__`: `self.scale_notes = get_scale_notes(key,
num_octaves=2)` (octave defaults to 4). -/
def melodyScaleNotes (key : Key) : List ℤ := get_scale_notes key none 4 2

/-- The `interval_weights` dict of `RandomWalkStrategy`, in insertion
order. -/
def interval_weights : List (ℤ × ℚ) :=
  [(0, 0.1), (1, 0.2), (2, 0.3), (3, 0.15), (4, 0.1), (5, 0.05), (7, 0.05),
   (-1, 0.2), (-2, 0.3), (-3, 0.15), (-4, 0.1), (-5, 0.05), (-7, 0.05)]

/-- The transition row built for one scale note: in-scale targets with
their weights, normalized when the total is positive. -/
def transitionsFor (scale : List ℤ) (note : ℤ) : List (ℤ × ℚ) :=
  let raw := interval_weights.filterMap (fun iw =>
    if (note + iw.1) ∈ scale then some (note + iw.1, iw.2) else none)
  let total := (raw.map Prod.snd).sum
  if 0 < total then raw.map (fun p => (p.1, p.2 / total)) else raw

/-- `random.choices(notes, probabilities)[0]`: scale a uniform draw by the
total weight and walk the cumulative weights; `none` when the list is
empty or the weights sum to zero (both raise in Python). -/
def weightedPick (items : List (ℤ × ℚ)) (r : ℚ) : Option ℤ :=
  if items.isEmpty ∨ (items.map Prod.snd).sum ≤ 0 then none
  else some (weightedGo items (r * (items.map Prod.snd).sum))
where
  weightedGo : List (ℤ × ℚ) → ℚ → ℤ
    | [], _ => 0
    | [(v, _)], _ => v
    | (v, w) :: rest, x => if x < w then v else weightedGo rest (x - w)

/-- The loop of `RandomWalkStrategy.generate`: emit the current note, then
move — 10% of the time to an off-scale pitch within ±3 semitones clamped
to [48,84] (staying put when no such pitch exists), otherwise by a
weighted transition; unmapped notes fall back to a ±2 bounded walk over
scale positions. -/
def randomWalkGo (key : Key) : ℕ → ℤ → RNG → Option (List ℤ)
  | 0, _, _ => some []
  | n + 1, current_note, g =>
    let scale := melodyScaleNotes key
    if current_note ∈ scale then
      let transitions := transitionsFor scale current_note
      if (pyRandom g).1 < 0.1 then
        let g1 := (pyRandom g).2
        let chromatic_options :=
          ((List.range 7).map (fun k => current_note - 3 + (k : ℤ))).filter
            (fun m => m ∉ transitions.map Prod.fst ∧ 48 ≤ m ∧ m ≤ 84)
        if chromatic_options.isEmpty then
          (randomWalkGo key n current_note g1).map (current_note :: ·)
        else
          (randomWalkGo key n ((pyChoice chromatic_options 0 g1).1)
            ((pyChoice chromatic_options 0 g1).2)).map (current_note :: ·)
      else
        let g1 := (pyRandom g).2
        match weightedPick transitions (g1.q 0) with
        | none => none
        | some next => (randomWalkGo key n next g1.tail).map (current_note :: ·)
    else
      let index := if current_note ∈ scale then scale.indexOf current_note else 0
      let step := (pyChoice ([-2, -1, 0, 1, 2] : List ℤ) 0 g).1
      let next_index := max 0 (min ((scale.length : ℤ) - 1) ((index : ℤ) + step))
      (randomWalkGo key n (scale.getD next_index.toNat 0)
        (pyChoice ([-2, -1, 0, 1, 2] : List ℤ) 0 g).2).map (current_note :: ·)

/-- `RandomWalkStrategy.generate` (default transition matrix; `start_note`
kwarg defaulting to the first scale note). -/
def randomWalkGenerate (key : Key) (start_note : Option ℤ) (length : ℕ)
    (g : RNG) : Option (List ℤ) :=
  randomWalkGo key length (start_note.getD ((melodyScaleNotes key).headD 0)) g

/-- A Python value that is either an int or a str — the element type of
`PhraseBuilder.pieces`, whose cadence appends one-character strings. -/
inductive PyVal where
  | intVal (n : ℤ)
  | strVal (s : String)
  deriving DecidableEq, Repr

/-- `random.sample(l, k)` specialised to ints: `k` distinct positions drawn
in sequence. -/
def pySampleInt : ℕ → List ℤ → RNG → List ℤ × RNG
  | 0, _, g => ([], g)
  | k + 1, l, g =>
    let idx := g.n 0 % l.length
    let rest := pySampleInt k (l.eraseIdx idx) g.tail
    (l.getD idx 0 :: rest.1, rest.2)

/-- The three variation transforms of `PatternBasedStrategy.generate`. -/
def patternVariation (variation_type : String) (motif : List ℤ) : List ℤ :=
  if variation_type = "interval" then motif.map (· + 2)
  else if variation_type = "rhythm" then
    (List.range (motif.length * 2)).map (fun i => motif.getD (i % motif.length) 0)
  else motif.mapIdx (fun i note => if i % 2 = 0 then note + 2 else note)

/-- `PhraseBuilder.add_cadence`: `pieces.extend([key.value[0],
key.value[0]])` — two copies of the FIRST CHARACTER of the key's name
string, not of the tonic pitch. -/
def add_cadence_vals (key : Key) : List PyVal :=
  [PyVal.strVal ⟨[key.value.data.headD ' ']⟩,
   PyVal.strVal ⟨[key.value.data.headD ' ']⟩]

/-- `PatternBasedStrategy.generate`: sample a motif, repeat it, append one
variation and the two-element cadence, and truncate to the requested
length (`PhraseBuilder.build` is `pieces[:length]`). -/
def patternMelodyGenerate (key : Key) (length motif_size repeat_count : ℕ)
    (variation_type : String) (g : RNG) : List PyVal × RNG :=
  let sampled := pySampleInt motif_size (melodyScaleNotes key) g
  let motif := sampled.1
  let pieces :=
    (List.flatten (List.replicate repeat_count motif)).map PyVal.intVal ++
    (patternVariation variation_type motif).map PyVal.intVal ++
    add_cadence_vals key
  (pieces.take length, sampled.2)

/-- The jazz branch of `NeuralStyleStrategy.generate`: 60% chord tones from
a random diatonic degree, otherwise scale tones. -/
def neuralJazzGo (key : Key) : ℕ → RNG → List ℤ × RNG
  | 0, g => ([], g)
  | n + 1, g =>
    if (pyRandom g).1 < 0.6 then
      let g1 := (pyRandom g).2
      let chord := get_diatonic_chord (pyRandint 1 7 g1).1.toNat key "major"
      let g2 := (pyRandint 1 7 g1).2
      let note := (pyChoice (chord.get_midi_notes key 4) 0 g2).1
      let rest := neuralJazzGo key n (pyChoice (chord.get_midi_notes key 4) 0 g2).2
      (note :: rest.1, rest.2)
    else
      let g1 := (pyRandom g).2
      let note := (pyChoice (melodyScaleNotes key) 0 g1).1
      let rest := neuralJazzGo key n (pyChoice (melodyScaleNotes key) 0 g1).2
      (note :: rest.1, rest.2)

/-- The pop branch: a proximity walk within 4 semitones of the previous
note, falling back to any scale tone. -/
def neuralPopGo (key : Key) : ℕ → ℤ → RNG → List ℤ × RNG
  | 0, _, g => ([], g)
  | n + 1, prev_note, g =>
    let neighbors := (melodyScaleNotes key).filter (fun m => |m - prev_note| ≤ 4)
    let source := if neighbors.isEmpty then melodyScaleNotes key else neighbors
    let note := (pyChoice source 0 g).1
    let rest := neuralPopGo key n note (pyChoice source 0 g).2
    (note :: rest.1, rest.2)

/-- The default branch: an unconstrained interval walk with fallback to a
random scale tone when the target leaves the scale. -/
def neuralDefaultGo (key : Key) : ℕ → ℤ → RNG → List ℤ × RNG
  | 0, _, g => ([], g)
  | n + 1, current_note, g =>
    let interval := (pyChoice ([-2, -1, 1, 2, -3, 3, -4, 4, -5, 5] : List ℤ) 0 g).1
    let g1 := (pyChoice ([-2, -1, 1, 2, -3, 3, -4, 4, -5, 5] : List ℤ) 0 g).2
    if (current_note + interval) ∈ melodyScaleNotes key then
      let rest := neuralDefaultGo key n (current_note + interval) g1
      (current_note :: rest.1, rest.2)
    else
      let next := (pyChoice (melodyScaleNotes key) 0 g1).1
      let rest := neuralDefaultGo key n next (pyChoice (melodyScaleNotes key) 0 g1).2
      (current_note :: rest.1, rest.2)

/-- `NeuralStyleStrategy.generate`: the pop branch starts from a melody
already holding the first scale note and loops `range(1, length)` times,
so a zero length still returns one note there. -/
def neuralGenerate (key : Key) (style : String) (length : ℕ) (g : RNG) :
    List ℤ × RNG :=
  if style = "jazz" then neuralJazzGo key length g
  else if style = "pop" then
    let rest := neuralPopGo key (length - 1) ((melodyScaleNotes key).headD 0) g
    ((melodyScaleNotes key).headD 0 :: rest.1, rest.2)
  else neuralDefaultGo key length ((melodyScaleNotes key).headD 0) g

/-- The chord list `GeneticOptimizationStrategy.generate` works from: the
truthy `custom_chords` if given, else the named progression's chords, else
empty (unknown name). -/
def geneticChords (progression_name : String)
    (custom_chords : Option (List Chord)) : List Chord :=
  let from_progression :=
    match get_progression_by_name progression_name with
    | some p => p.chords.map (fun dq => Chord.mk (dq.1 - 1) dq.2 0 none)
    | none => []
  match custom_chords with
  | some cs => if cs.isEmpty then from_progression else cs
  | none => from_progression

/-- `GeneticOptimizationStrategy._fitness_function`. `none` is the
`ZeroDivisionError` raised on an empty melody (`total / len(melody)`), an
empty chord list, or a melody shorter than the chord list
(`i // (len(melody) // len(chords))` with a zero divisor). -/
def fitness_function (key : Key) (melody : List ℤ) (chords : List Chord) :
    Option ℚ :=
  if melody.length = 0 then none
  else if chords.length = 0 then none
  else if melody.length / chords.length = 0 then none
  else
    let q := melody.length / chords.length
    let scale := melodyScaleNotes key
    some (((melody.enum.map (fun inote =>
      let chord := chords.getD (min (inote.1 / q) (chords.length - 1)) cdum
      if ((chord.get_midi_notes key 4).map (· % 12)).contains (inote.2 % 12)
      then (1 : ℚ)
      else if (scale.map (· % 12)).contains (inote.2 % 12) then (1 : ℚ)/2
      else 0)).sum) / melody.length)

/-- One random melody of the initial population. -/
def randMelody (scale : List ℤ) : ℕ → RNG → List ℤ × RNG
  | 0, g => ([], g)
  | n + 1, g =>
    let note := (pyChoice scale 0 g).1
    let rest := randMelody scale n (pyChoice scale 0 g).2
    (note :: rest.1, rest.2)

/-- `GeneticOptimizationStrategy._initialize_population` (renamed: a list
of `population_size` random scale-note melodies). -/
def initPopulation (scale : List ℤ) : ℕ → ℕ → RNG → List (List ℤ) × RNG
  | 0, _, g => ([], g)
  | k + 1, length, g =>
    let m := randMelody scale length g
    let rest := initPopulation scale k length m.2
    (m.1 :: rest.1, rest.2)

/-- `GeneticOptimizationStrategy._mutate` (per-gene 10% replacement by a
random scale note). -/
def gaMutate (scale : List ℤ) : List ℤ → RNG → List ℤ × RNG
  | [], g => ([], g)
  | x :: xs, g =>
    if (pyRandom g).1 < 0.1 then
      let v := (pyChoice scale 0 (pyRandom g).2).1
      let rest := gaMutate scale xs (pyChoice scale 0 (pyRandom g).2).2
      (v :: rest.1, rest.2)
    else
      let rest := gaMutate scale xs (pyRandom g).2
      (x :: rest.1, rest.2)

/-- `GeneticOptimizationStrategy._crossover`: single split point from
`randint(1, len(parent1)-1)` (`none` is the `ValueError` of an empty
range when the parents have length at most 1). -/
def gaCrossover (parent1 parent2 : List ℤ) (g : RNG) :
    Option ((List ℤ × List ℤ) × RNG) :=
  if parent1.length ≤ 1 then none
  else
    let pt := (pyRandint 1 ((parent1.length : ℤ) - 1) g).1.toNat
    some ((parent1.take pt ++ parent2.drop pt,
           parent2.take pt ++ parent1.drop pt), g.tail)

/-- `random.sample(selected, 2)`: two distinct positions (`none` is the
`ValueError` when fewer than two candidates exist). -/
def pySample2 (selected : List (List ℤ)) (g : RNG) :
    Option ((List ℤ × List ℤ) × RNG) :=
  if selected.length < 2 then none
  else
    let i := g.n 0 % selected.length
    let rest := selected.eraseIdx i
    let j := g.tail.n 0 % rest.length
    some ((selected.getD i [], rest.getD j []), g.tail.tail)

/-- The `while len(new_population) < population_size` refill loop. Each
iteration appends two children, so `population_size` fuel units always
cover the at most `⌈population_size/2⌉` iterations the Python loop runs. -/
def gaFill (scale : List ℤ) (population_size : ℕ)
    (selected : List (List ℤ)) :
    ℕ → List (List ℤ) → RNG → Option (List (List ℤ) × RNG)
  | 0, new_population, g => some (new_population, g)
  | fuel + 1, new_population, g =>
    if new_population.length < population_size then
      match pySample2 selected g with
      | none => none
      | some ((parent1, parent2), g1) =>
        if (pyRandom g1).1 < 0.7 then
          match gaCrossover parent1 parent2 (pyRandom g1).2 with
          | none => none
          | some ((child1, child2), g2) =>
            let m1 := gaMutate scale child1 g2
            let m2 := gaMutate scale child2 m1.2
            gaFill scale population_size selected fuel
              (new_population ++ [m1.1, m2.1]) m2.2
        else
          let m1 := gaMutate scale parent1 (pyRandom g1).2
          let m2 := gaMutate scale parent2 m1.2
          gaFill scale population_size selected fuel
            (new_population ++ [m1.1, m2.1]) m2.2
    else some (new_population, g)

/-- One generation of the genetic loop: fitness of every individual
(erroring out if any fitness call raises), stable descending sort of the
indices, elitist half, refill, truncate. -/
def gaGeneration (key : Key) (scale : List ℤ) (population_size : ℕ)
    (chords : List Chord) (population : List (List ℤ)) (g : RNG) :
    Option (List (List ℤ) × RNG) :=
  match population.mapM (fun ind => fitness_function key ind chords) with
  | none => none
  | some fitness_scores =>
    let sorted_indices := (List.range population.length).mergeSort
      (fun i j => fitness_scores.getD j 0 ≤ fitness_scores.getD i 0)
    let selected := (sorted_indices.take (population_size / 2)).map
      (fun i => population.getD i [])
    match gaFill scale population_size selected population_size selected g with
    | none => none
    | some (new_population, g') => some (new_population.take population_size, g')

/-- The `for generation in range(self.generations)` loop. -/
def gaLoop (key : Key) (scale : List ℤ) (population_size : ℕ)
    (chords : List Chord) :
    ℕ → List (List ℤ) → RNG → Option (List (List ℤ) × RNG)
  | 0, population, g => some (population, g)
  | gens + 1, population, g =>
    match gaGeneration key scale population_size chords population g with
    | none => none
    | some (population', g') =>
      gaLoop key scale population_size chords gens population' g'

/-- `GeneticOptimizationStrategy.generate`. The final step returns the
first individual of maximal fitness (`max` of an empty score list raises,
hence `none`). -/
def geneticGenerate (key : Key) (population_size generations length : ℕ)
    (progression_name : String) (custom_chords : Option (List Chord))
    (g : RNG) : Option (List ℤ) :=
  let chords := geneticChords progression_name custom_chords
  let scale := melodyScaleNotes key
  let init := initPopulation scale population_size length g
  match gaLoop key scale population_size chords generations init.1 init.2 with
  | none => none
  | some (population, _) =>
    match population.mapM (fun ind => fitness_function key ind chords) with
    | none => none
    | some fitness_scores =>
      match fitness_scores.max? with
      | none => none
      | some best =>
        some (population.getD (fitness_scores.indexOf best) [])

/-- `MonteCarloTreeSearchStrategy._evaluate_state`. `none` is the
`ZeroDivisionError` of `len(notes) / target_length` at target 0. -/
def evaluate_state (notes : List ℤ) (target_length : ℕ) : Option ℚ :=
  if notes.length < target_length then some 0
  else if target_length = 0 then none
  else
    let completion := (notes.length : ℚ) / (target_length : ℚ)
    let interval_diversity : ℚ :=
      if 1 < notes.length then
        let intervals := (List.range (notes.length - 1)).map
          (fun i => |notes.getD (i + 1) 0 - notes.getD i 0|)
        (intervals.dedup.length : ℚ) / (intervals.length : ℚ)
      else 0
    let pitch_range :=
      (((notes.max?.getD 0) - (notes.min?.getD 0) : ℤ) : ℚ) / 12
    let range_score := min 1 (pitch_range / 2)
    some (completion * 0.4 + interval_diversity * 0.4 + range_score * 0.2)

/-- `MonteCarloTreeSearchStrategy._get_possible_next_notes`. -/
def mctsPossibleNext (scale : List ℤ) (current_notes : List ℤ) : List ℤ :=
  if current_notes.isEmpty then [scale.headD 0]
  else
    let last_note := current_notes.getLastD 0
    let possible := scale.filter
      (fun m => 48 ≤ m ∧ m ≤ 84 ∧ |m - last_note| ≤ 8)
    if possible.isEmpty then [last_note] else possible

/-- The candidate-scoring fold of one MCTS step: best note by strict
improvement over a starting score of -1. -/
def mctsBestNext (target_length : ℕ) (current_melody possible : List ℤ) :
    Option (Option ℤ) :=
  (possible.foldlM (fun (acc : Option ℤ × ℚ) next_note =>
    match evaluate_state (current_melody ++ [next_note]) target_length with
    | none => none
    | some score =>
      some (if acc.2 < score then (some next_note, score) else acc))
    ((none : Option ℤ), (-1 : ℚ))).map Prod.fst

/-- One position of an MCTS simulation: score the candidates, 20% of the
time pick uniformly instead, append. -/
def mctsSimStep (scale : List ℤ) (target_length : ℕ)
    (current_melody : List ℤ) (g : RNG) : Option (List ℤ × RNG) :=
  let possible := mctsPossibleNext scale current_melody
  match mctsBestNext target_length current_melody possible with
  | none => none
  | some best =>
    if (pyRandom g).1 < 0.2 then
      some (current_melody ++ [(pyChoice possible 0 (pyRandom g).2).1],
        (pyChoice possible 0 (pyRandom g).2).2)
    else
      match best with
      | none => none
      | some b => some (current_melody ++ [b], (pyRandom g).2)

/-- One full simulated melody (`for position in range(length)`). -/
def mctsBuild (scale : List ℤ) (target_length : ℕ) :
    ℕ → List ℤ → RNG → Option (List ℤ × RNG)
  | 0, current_melody, g => some (current_melody, g)
  | n + 1, current_melody, g =>
    match mctsSimStep scale target_length current_melody g with
    | none => none
    | some (current', g') => mctsBuild scale target_length n current' g'

/-- The simulation loop of `MonteCarloTreeSearchStrategy.generate`,
keeping the best-scoring full melody. -/
def mctsLoop (scale : List ℤ) (length : ℕ) :
    ℕ → List ℤ → ℚ → RNG → Option (List ℤ)
  | 0, best_melody, _, _ => some best_melody
  | s + 1, best_melody, best_score, g =>
    match mctsBuild scale length length [] g with
    | none => none
    | some (current_melody, g') =>
      match evaluate_state current_melody length with
      | none => none
      | some final_score =>
        if best_score < final_score then
          mctsLoop scale length s current_melody final_score g'
        else
          mctsLoop scale length s best_melody best_score g'

/-- `MonteCarloTreeSearchStrategy.generate`. -/
def mctsGenerate (key : Key) (simulations length : ℕ) (g : RNG) :
    Option (List ℤ) :=
  mctsLoop (melodyScaleNotes key) length simulations [] (-1) g

/-! ### `generators/harmony.py`: the other strategies -/

/-- The chord-building loop of `ProgressionBasedStrategy.generate`. `none`
covers `chord_index % 0` on an empty progression and the `TypeError` that
`bass_motion` raises on any chord after the first (`chords[-1][0]`
subscripts a `Chord` object). -/
def progChordsGo (key : Key) (progression_chords : List (ℕ × ChordQuality))
    (inversion_mode : String) :
    ℕ → ℕ → Bool → RNG → Option (List Chord × RNG)
  | 0, _, _, g => some ([], g)
  | count + 1, chord_index, has_prev, g =>
    if progression_chords.length = 0 then none
    else
      let dq := progression_chords.getD
        (chord_index % progression_chords.length) (1, ChordQuality.MAJOR)
      let chord := Chord.mk (dq.1 - 1) dq.2 0 none
      if inversion_mode = "random" then
        let chord' := Chord.mk chord.root chord.quality
          (pyRandint 0 2 g).1.toNat chord.bass_note
        match progChordsGo key progression_chords inversion_mode count
            (chord_index + 1) true (pyRandint 0 2 g).2 with
        | none => none
        | some (rest, g') => some (chord' :: rest, g')
      else if inversion_mode = "bass_motion" then
        if has_prev then none
        else
          match progChordsGo key progression_chords inversion_mode count
              (chord_index + 1) true g with
          | none => none
          | some (rest, g') => some (chord :: rest, g')
      else
        match progChordsGo key progression_chords inversion_mode count
            (chord_index + 1) true g with
        | none => none
        | some (rest, g') => some (chord :: rest, g')

/-- The `rhythm == "random"` duration list of
`ProgressionBasedStrategy.generate`: one `uniform(0.5, 1.5)` factor per
chord (`uniform(a, b)` is `a + (b-a)*random()`). -/
def progressionRandomDurations (beats_per_chord : ℚ) :
    ℕ → RNG → List ℚ × RNG
  | 0, g => ([], g)
  | n + 1, g =>
    let factor : ℚ := 0.5 + (pyRandom g).1 * (1.5 - 0.5)
    let rest := progressionRandomDurations beats_per_chord n (pyRandom g).2
    (beats_per_chord * factor :: rest.1, rest.2)

/-- The non-random duration patterns are index-based; this reproduces the
whole `durations` list for the `steady`/`syncopated`/default branches. -/
def progressionDurationsFixed (beats_per_chord : ℚ) (rhythm : String)
    (total_chords : ℕ) : List ℚ :=
  if rhythm = "syncopated" then
    (List.range total_chords).map
      (fun i => if i % 2 = 1 then beats_per_chord * 0.5
                else beats_per_chord * 1.5)
  else List.replicate total_chords beats_per_chord

/-- `ProgressionBasedStrategy.generate` (progression resolved at
construction). `none` also covers the `ZeroDivisionError` of
`beats_per_bar / chords_per_bar` at zero chords per bar. -/
def progressionGenerate (key : Key) (beats_per_bar : ℕ)
    (progression : ChordProgression) (num_bars chords_per_bar : ℕ)
    (rhythm : String) (apply_voice_leading_flag : Bool)
    (inversion_mode : String) (g : RNG) :
    Option (List (ℤ × ℚ) × RNG) :=
  let total_chords := num_bars * chords_per_bar
  match progChordsGo key progression.chords inversion_mode total_chords 0
      false g with
  | none => none
  | some (chords0, g1) =>
    let chords := if apply_voice_leading_flag then
        apply_voice_leading chords0 key .SMOOTH
      else chords0
    if chords_per_bar = 0 then none
    else
      let beats_per_chord : ℚ := (beats_per_bar : ℚ) / (chords_per_bar : ℚ)
      let durations :=
        if rhythm = "random" then
          progressionRandomDurations beats_per_chord total_chords g1
        else (progressionDurationsFixed beats_per_chord rhythm total_chords, g1)
      some ((chords.zip durations.1).map
        (fun cd => ((cd.1.get_midi_notes key 4).headD 0, cd.2)), durations.2)

/-- The `functional_groups` dict of `FunctionalStrategy`. -/
def functionalGroups (f : String) : List ℕ :=
  if f = "T" then [0]
  else if f = "S" then [3, 4]
  else if f = "D" then [4, 6]
  else []

/-- The per-slot loop of `FunctionalStrategy._generate_phrase`: one random
degree of each functional group, equal duration per slot. -/
def functionalPhraseGo (key : Key) (duration : ℚ) :
    List String → RNG → List (ℤ × ℚ) × RNG
  | [], g => ([], g)
  | f :: fs, g =>
    let chord_degree := (pyChoice (functionalGroups f) 0 g).1
    let chord := get_diatonic_chord (chord_degree + 1) key "major"
    let root_note := (chord.get_midi_notes key 4).headD 0
    let rest := functionalPhraseGo key duration fs (pyChoice (functionalGroups f) 0 g).2
    ((root_note, duration) :: rest.1, rest.2)

/-- `FunctionalStrategy._generate_phrase`: the four-step functional
skeleton of a phrase letter. -/
def functionalPhrase (key : Key) (phrase_type : String) (beats : ℚ)
    (g : RNG) : List (ℤ × ℚ) × RNG :=
  let functional_pattern :=
    if phrase_type = "A" then ["T", "S", "D", "T"]
    else if phrase_type = "B" then ["S", "T", "S", "D"]
    else ["T", "S", "D", "T"]
  functionalPhraseGo key (beats / (functional_pattern.length : ℚ))
    functional_pattern g

/-- The per-letter loop of `FunctionalStrategy.generate`. -/
def functionalGo (key : Key) (phrase_beats : ℚ) :
    List Char → RNG → List (ℤ × ℚ) × RNG
  | [], g => ([], g)
  | ch :: rest, g =>
    let phrase := functionalPhrase key ⟨[ch]⟩ phrase_beats g
    let tail := functionalGo key phrase_beats rest phrase.2
    (phrase.1 ++ tail.1, tail.2)

/-- `FunctionalStrategy.generate`: split into phrase letters, each with a
four-slot skeleton. `none` is the `ZeroDivisionError` on an empty phrase
structure. -/
def functionalGenerate (key : Key) (beats_per_bar num_bars : ℕ)
    (phrase_structure : String) (g : RNG) :
    Option (List (ℤ × ℚ) × RNG) :=
  if phrase_structure.length = 0 then none
  else
    let bars_per_phrase := num_bars / phrase_structure.length
    let phrase_beats : ℚ := ((bars_per_phrase * beats_per_bar : ℕ) : ℚ)
    some (functionalGo key phrase_beats phrase_structure.data g)

/-- `HybridHarmonyStrategy.generate` with the default strategy pair (a
progression-based strategy, then a diatonic strategy, both with their
default generate parameters): `int(num_bars * split_ratio)` bars from the
first, the rest from the second. -/
def hybridHarmonyGenerate (key : Key) (beats_per_bar : ℕ)
    (progression : ChordProgression) (num_bars : ℕ) (split_ratio : ℚ)
    (g : RNG) : Option (List (ℤ × ℚ) × RNG) :=
  let first_bars := (pyTrunc ((num_bars : ℚ) * split_ratio)).toNat
  let second_bars := num_bars - first_bars
  match progressionGenerate key beats_per_bar progression first_bars 1
      "steady" false "none" g with
  | none => none
  | some (first_part, g1) =>
    match diatonicGenerate key beats_per_bar second_bars 0.5 true none g1 with
    | none => none
    | some (second_part, g2) => some (first_part ++ second_part, g2)

/-- `mapM` over `Option` fails as soon as any element fails. -/
theorem mapM_none_of_mem {α β : Type} (f : α → Option β) :
    ∀ (l : List α), l ≠ [] → (∀ a ∈ l, f a = none) → l.mapM f = none := by
  intro l
  match l with
  | [] => intro h; exact absurd rfl h
  | x :: xs =>
    intro _ hall
    rw [List.mapM_cons, hall x (List.mem_cons_self x xs)]
    rfl

/-- The initial population has `population_size` members. -/
theorem initPopulation_length (scale : List ℤ) :
    ∀ (k length : ℕ) (g : RNG),
      (initPopulation scale k length g).1.length = k := by
  intro k
  induction k with
  | zero => intro length g; rfl
  | succ k ih =>
    intro length g
    show ((randMelody scale length g).1 :: _).length = k + 1
    simp [ih]

/-- Zero-length requests make every initial individual empty. -/
theorem initPopulation_zero_len (scale : List ℤ) :
    ∀ (k : ℕ) (g : RNG) (ind : List ℤ),
      ind ∈ (initPopulation scale k 0 g).1 → ind = [] := by
  intro k
  induction k with
  | zero => intro g ind h; simp [initPopulation] at h
  | succ k ih =>
    intro g ind h
    rcases List.mem_cons.mp h with h | h
    · rw [h]; rfl
    · exact ih _ ind h

/-- If every member of the initial population has `none` fitness against
the working chord list, `generate` propagates the error whatever the
generation count (the first fitness sweep already fails). -/
theorem geneticGenerate_none_of (key : Key)
    (population_size generations length : ℕ) (progression_name : String)
    (custom_chords : Option (List Chord)) (g : RNG)
    (hne : (initPopulation (melodyScaleNotes key) population_size length g).1 ≠ [])
    (hfit : ∀ ind ∈ (initPopulation (melodyScaleNotes key) population_size
        length g).1,
      fitness_function key ind (geneticChords progression_name custom_chords) =
        none) :
    geneticGenerate key population_size generations length progression_name
      custom_chords g = none := by
  have hmap := mapM_none_of_mem
    (fun ind => fitness_function key ind
      (geneticChords progression_name custom_chords)) _ hne hfit
  match generations with
  | 0 => simp only [geneticGenerate, gaLoop, hmap]
  | gens + 1 => simp only [geneticGenerate, gaLoop, gaGeneration, hmap]

/-- C8 counterexample: the genetic fitness computation on an empty chord
list is a `ZeroDivisionError` (`len(melody) // len(chords)`), not a safe
default score. -/
theorem C8_empty_chords_counterexample :
    fitness_function Key.C_MAJOR [60] [] = none ∧
    ∀ q : ℚ, fitness_function Key.C_MAJOR [60] [] ≠ some q := by
  have h : fitness_function Key.C_MAJOR [60] [] = none := rfl
  exact ⟨h, fun q hq => by rw [h] at hq; exact Option.noConfusion hq⟩

/-- C8 (amended form): `analyze_melody_congruence` does return 0.0 on an
empty melody list, but the genetic fitness computation raises
(`ZeroDivisionError`) on an empty chord list for every melody, and
`GeneticOptimizationStrategy.generate` with an unknown progression name —
which yields an empty chord list — raises rather than returning. -/
theorem C8_degenerate_inputs_amended :
    (∀ (chord : Chord) (key : Key),
      analyze_melody_congruence [] chord key = 0) ∧
    (∀ (key : Key) (melody : List ℤ),
      fitness_function key melody [] = none) ∧
    (∀ (key : Key) (population_size generations length : ℕ) (name : String)
      (g : RNG), get_progression_by_name name = none → 1 ≤ population_size →
      geneticGenerate key population_size generations length name none g =
        none) := by
  have hfit : ∀ (key : Key) (melody : List ℤ),
      fitness_function key melody [] = none := by
    intro key melody
    unfold fitness_function
    split_ifs with h1 h2 h3 <;> first | rfl | exact absurd rfl h2
  refine ⟨?_, hfit, ?_⟩
  · intro chord key
    simp [analyze_melody_congruence]
  · intro key ps gens len name g hname hps
    have hchords : geneticChords name none = [] := by
      unfold geneticChords
      rw [hname]
    refine geneticGenerate_none_of key ps gens len name none g ?_ ?_
    · intro hempty
      have := initPopulation_length (melodyScaleNotes key) ps len g
      rw [hempty] at this
      simp at this
      omega
    · intro ind _
      rw [hchords]
      exact hfit key ind

/-- C8 witness: C major, one-note melody, an unknown progression name and
the default population parameters. -/
theorem C8_degenerate_inputs_witness :
    analyze_melody_congruence [] cdum Key.C_MAJOR = 0 ∧
    fitness_function Key.C_MAJOR [64] [] = none ∧
    geneticGenerate Key.C_MAJOR 50 100 16 "no_such_progression" none
      constRNG = none := by
  refine ⟨C8_degenerate_inputs_amended.1 cdum Key.C_MAJOR,
    C8_degenerate_inputs_amended.2.1 Key.C_MAJOR [64],
    C8_degenerate_inputs_amended.2.2 Key.C_MAJOR 50 100 16
      "no_such_progression" constRNG ?_ (by norm_num)⟩
  rfl

/-- C7: evaluation of the pattern-based melody at its default parameters
(length 16, motif size 4, repeat 2, interval variation) in C major under
the constant random source. The sequence ends with the two cadence
elements, and they are the one-character STRING "C" (`key.value[0]`) —
not the tonic's MIDI pitch number 60 that the claim (and the builder's
own docstring, "落回主音", and its `List[int]` return annotation)
promise. -/
theorem C7_cadence_evaluation :
    (patternMelodyGenerate Key.C_MAJOR 16 4 2 "interval" constRNG).1.length
      = 14 ∧
    (patternMelodyGenerate Key.C_MAJOR 16 4 2 "interval" constRNG).1.drop 12
      = [PyVal.strVal "C", PyVal.strVal "C"] ∧
    (∀ v ∈ (patternMelodyGenerate Key.C_MAJOR 16 4 2 "interval"
        constRNG).1.drop 12, v ≠ PyVal.intVal Key.C_MAJOR.tonic) := by
  decide

/-- Every predefined rhythm pattern is non-empty with positive total and
positive first duration. -/
theorem rhythm_pattern_facts (P : RhythmPattern) :
    RHYTHM_PATTERNS P ≠ [] ∧ 0 < (RHYTHM_PATTERNS P).sum ∧
    0 < (RHYTHM_PATTERNS P).headD 1 := by
  cases P <;>
    exact ⟨by simp [RHYTHM_PATTERNS], by norm_num [RHYTHM_PATTERNS],
      by norm_num [RHYTHM_PATTERNS, List.replicate_succ]⟩

/-- Normalizing any positive-total duration list to zero bars truncates it
to the empty list. -/
theorem normalize_zero_bars (beats_per_bar : ℕ) (l : List ℚ) (hne : l ≠ [])
    (hsum : 0 < l.sum) (hh : 0 < l.headD 1) :
    normalize_to_bars beats_per_bar l 0 = some [] := by
  match l, hne with
  | d :: rest, _ =>
    unfold normalize_to_bars
    have ht : ((0 * beats_per_bar : ℕ) : ℚ) = 0 := by simp
    rw [if_neg (by exact hsum.ne'), ht, if_neg (by push_neg; exact hsum.le),
      if_pos hsum]
    congr 1
    unfold trimToBudget
    have hd : (0 : ℚ) < d := by simpa using hh
    rw [if_neg (by push_neg; linarith), if_neg (by norm_num)]

/-- A pattern rhythm request for zero bars yields the empty list, whatever
pattern ends up selected. -/
theorem patternRhythmGenerate_zero (pat : Option RhythmPattern)
    (beats_per_bar : ℕ) (g : RNG) :
    (patternRhythmGenerate pat beats_per_bar 0 g).1 = some [] := by
  simp only [patternRhythmGenerate]
  set P := (match pat with
    | none => (pyChoice allRhythmPatterns RhythmPattern.STEADY_QUARTERS g).1
    | some p => p) with hP
  obtain ⟨hne, hsum, hh⟩ := rhythm_pattern_facts P
  rw [if_neg hsum.ne']
  have hrep : (pyTrunc (((0 * beats_per_bar : ℕ) : ℚ) /
      (RHYTHM_PATTERNS P).sum)).toNat + 1 = 1 := by
    have h0 : ((0 * beats_per_bar : ℕ) : ℚ) = 0 := by simp
    rw [h0, zero_div]
    norm_num [pyTrunc]
  rw [hrep]
  show normalize_to_bars beats_per_bar
    (List.flatten (List.replicate 1 (RHYTHM_PATTERNS P))) 0 = some []
  rw [show List.flatten (List.replicate 1 (RHYTHM_PATTERNS P)) =
    RHYTHM_PATTERNS P by simp]
  exact normalize_zero_bars beats_per_bar _ hne hsum hh

/-- A random-rhythm request for zero bars yields the empty list. -/
theorem randomRhythmGenerate_zero (beats_per_bar : ℕ) (allowed : List ℚ)
    (g : RNG) : randomRhythmGenerate beats_per_bar allowed 0 g = some [] := by
  unfold randomRhythmGenerate
  simp only [Nat.zero_mul, Nat.mul_zero]
  rw [randomRhythmLoop]
  rw [if_neg (by norm_num)]

/-- A swing request for zero bars yields the empty list. -/
theorem swingRhythmGenerate_zero (beats_per_bar : ℕ) (swingAmount : ℚ) :
    swingRhythmGenerate beats_per_bar swingAmount 0 = [] := by
  unfold swingRhythmGenerate
  simp

/-- A groove request for zero bars yields the empty list. -/
theorem grooveRhythmGenerate_zero (beats_per_bar : ℕ) (style : String)
    (g : RNG) : grooveRhythmGenerate beats_per_bar style 0 g = some [] := by
  unfold grooveRhythmGenerate
  exact patternRhythmGenerate_zero _ _ _

/-- A hybrid-rhythm request for zero bars yields the empty list. -/
theorem hybridRhythmGenerate_zero (beats_per_bar : ℕ) (g : RNG) :
    hybridRhythmGenerate beats_per_bar 0 g = some [] := by
  unfold hybridRhythmGenerate
  simp only [Nat.zero_div, Nat.sub_self, Nat.sub_zero]
  rw [patternRhythmGenerate_zero (some .STEADY_QUARTERS) beats_per_bar g]
  rw [randomRhythmGenerate_zero beats_per_bar _ g]
  rfl

/-- A diatonic request for zero bars yields the empty list, whatever the
density, repetition flag and cadence pattern. -/
theorem diatonicGenerate_zero (key : Key) (beats_per_bar : ℕ) (density : ℚ)
    (avoid_repetition : Bool) (cadence_pattern : Option (List ℤ)) (g : RNG) :
    (diatonicGenerate key beats_per_bar 0 density avoid_repetition
      cadence_pattern g).map Prod.fst = some [] := by
  unfold diatonicGenerate
  simp only [Nat.zero_mul, Nat.mul_zero, Nat.cast_zero]
  rw [diatonicLoop]
  rw [if_neg (by norm_num)]
  cases cadence_pattern with
  | none => rfl
  | some cp =>
    simp only [applyCadencePattern]
    split_ifs with h1 h2
    · simp at h2
    · rfl
    · rfl

/-- A progression-based request for zero bars (with a positive
chords-per-bar) yields the empty list. -/
theorem progressionGenerate_zero (key : Key) (beats_per_bar : ℕ)
    (progression : ChordProgression) (chords_per_bar : ℕ) (rhythm : String)
    (apply_voice_leading_flag : Bool) (inversion_mode : String) (g : RNG)
    (hcpb : 1 ≤ chords_per_bar) :
    (progressionGenerate key beats_per_bar progression 0 chords_per_bar
      rhythm apply_voice_leading_flag inversion_mode g).map Prod.fst =
      some [] := by
  unfold progressionGenerate
  simp only [Nat.zero_mul]
  rw [progChordsGo]
  have hvl : (if apply_voice_leading_flag then
      apply_voice_leading [] key .SMOOTH else []) = [] := by
    cases apply_voice_leading_flag <;> rfl
  simp only [hvl]
  rw [if_neg (by omega)]
  by_cases hr : rhythm = "random" <;> simp [hr, progressionRandomDurations]

/-- Spec of the functional phrase slot loop: one entry per slot, all with
the given duration. -/
theorem functionalPhraseGo_spec (key : Key) (duration : ℚ) :
    ∀ (fs : List String) (g : RNG),
      (functionalPhraseGo key duration fs g).1.length = fs.length ∧
      ∀ e ∈ (functionalPhraseGo key duration fs g).1, e.2 = duration := by
  intro fs
  induction fs with
  | nil => intro g; exact ⟨rfl, by intro e he; simp [functionalPhraseGo] at he⟩
  | cons f fs ih =>
    intro g
    constructor
    · show (_ :: _).length = fs.length + 1
      simp [(ih _).1]
    · intro e he
      rcases List.mem_cons.mp he with h | h
      · rw [h]
      · exact (ih _).2 e h

/-- Spec of one functional phrase at a zero beat budget: four entries, all
zero-duration. -/
theorem functionalPhrase_zero (key : Key) (phrase_type : String) (g : RNG) :
    (functionalPhrase key phrase_type 0 g).1.length = 4 ∧
    ∀ e ∈ (functionalPhrase key phrase_type 0 g).1, e.2 = 0 := by
  unfold functionalPhrase
  split_ifs <;>
  · constructor
    · rw [(functionalPhraseGo_spec key _ _ _).1]
      rfl
    · intro e he
      have := (functionalPhraseGo_spec key _ _ _).2 e he
      simpa using this

/-- The per-letter loop at a zero beat budget: four zero-duration entries
per letter. -/
theorem functionalGo_zero (key : Key) :
    ∀ (chars : List Char) (g : RNG),
      (functionalGo key 0 chars g).1.length = 4 * chars.length ∧
      ∀ e ∈ (functionalGo key 0 chars g).1, e.2 = 0 := by
  intro chars
  induction chars with
  | nil => intro g; exact ⟨rfl, by intro e he; simp [functionalGo] at he⟩
  | cons ch rest ih =>
    intro g
    constructor
    · show ((functionalPhrase key _ 0 g).1 ++ _).length = _
      rw [List.length_append, (functionalPhrase_zero key _ g).1, (ih _).1]
      simp only [List.length_cons]
      ring
    · intro e he
      rcases List.mem_append.mp he with h | h
      · exact (functionalPhrase_zero key _ g).2 e h
      · exact (ih _).2 e h

/-- `FunctionalStrategy.generate` at zero bars returns one zero-duration
entry per skeleton slot — four per phrase letter, not an empty list. -/
theorem functionalGenerate_zero (key : Key) (beats_per_bar : ℕ)
    (phrase_structure : String) (g : RNG)
    (h : phrase_structure.length ≠ 0) :
    ∃ out g', functionalGenerate key beats_per_bar 0 phrase_structure g =
      some (out, g') ∧ out.length = 4 * phrase_structure.length ∧
      ∀ e ∈ out, e.2 = 0 := by
  simp only [functionalGenerate]
  rw [if_neg h]
  have hz : ((0 / phrase_structure.length * beats_per_bar : ℕ) : ℚ) = 0 := by
    simp [Nat.zero_div]
  rw [hz]
  refine ⟨(functionalGo key 0 phrase_structure.data g).1,
    (functionalGo key 0 phrase_structure.data g).2, rfl, ?_, ?_⟩
  · rw [(functionalGo_zero key _ g).1]
    rfl
  · exact (functionalGo_zero key _ g).2

/-- Hybrid harmony at zero bars yields the empty list. -/
theorem hybridHarmonyGenerate_zero (key : Key) (beats_per_bar : ℕ)
    (progression : ChordProgression) (split_ratio : ℚ) (g : RNG) :
    (hybridHarmonyGenerate key beats_per_bar progression 0 split_ratio
      g).map Prod.fst = some [] := by
  unfold hybridHarmonyGenerate
  have h0 : (pyTrunc ((0 : ℕ) * split_ratio)).toNat = 0 := by
    norm_num [pyTrunc]
  rw [h0]
  simp only [Nat.sub_self]
  have hp := progressionGenerate_zero key beats_per_bar progression 1
    "steady" false "none" g (by norm_num)
  obtain ⟨⟨first_part, g1⟩, hx, hf⟩ := Option.map_eq_some'.mp hp
  obtain ⟨⟨second_part, g2⟩, hy, hs⟩ := Option.map_eq_some'.mp
    (diatonicGenerate_zero key beats_per_bar 0.5 true none g1)
  simp [hx, hy, show first_part = [] from hf, show second_part = [] from hs]

/-- The fitness of an empty melody is a `ZeroDivisionError` whatever the
chord list. -/
theorem fitness_empty_melody (key : Key) (chords : List Chord) :
    fitness_function key [] chords = none := rfl

/-- MCTS at target length zero: the first simulation's final evaluation
divides `len(notes)` by a zero target and raises. -/
theorem mctsGenerate_zero (key : Key) (simulations : ℕ) (g : RNG)
    (h : 1 ≤ simulations) : mctsGenerate key simulations 0 g = none := by
  match simulations, h with
  | s + 1, _ =>
    show mctsLoop (melodyScaleNotes key) 0 (s + 1) [] (-1) g = none
    rw [mctsLoop]
    rfl

/-- Genetic search at melody length zero: every initial individual is
empty, so the very first fitness sweep divides by zero and raises. -/
theorem geneticGenerate_zero (key : Key) (population_size generations : ℕ)
    (progression_name : String) (custom_chords : Option (List Chord))
    (g : RNG) (hps : 1 ≤ population_size) :
    geneticGenerate key population_size generations 0 progression_name
      custom_chords g = none := by
  refine geneticGenerate_none_of key population_size generations 0
    progression_name custom_chords g ?_ ?_
  · intro hempty
    have := initPopulation_length (melodyScaleNotes key) population_size 0 g
    rw [hempty] at this
    simp at this
    omega
  · intro ind hind
    rw [initPopulation_zero_len (melodyScaleNotes key) population_size g
      ind hind]
    exact fitness_empty_melody key _

/-- C3 (amended form): a zero-length request yields an empty sequence for
the RandomWalk, PatternBased and NeuralStyle (non-"pop") melody
strategies, for the ProgressionBased (positive chords-per-bar), Diatonic
and Hybrid harmony strategies, and for all five rhythm strategies; but
NeuralStyle "pop" returns one note, the Genetic and MCTS strategies raise
`ZeroDivisionError`, and FunctionalStrategy returns one zero-duration
entry per skeleton slot (four per phrase letter). -/
theorem C3_zero_length_amended :
    (∀ (key : Key) (start_note : Option ℤ) (g : RNG),
      randomWalkGenerate key start_note 0 g = some []) ∧
    (∀ (key : Key) (motif_size repeat_count : ℕ) (variation_type : String)
      (g : RNG),
      (patternMelodyGenerate key 0 motif_size repeat_count variation_type
        g).1 = []) ∧
    (∀ (key : Key) (style : String) (g : RNG), style ≠ "pop" →
      (neuralGenerate key style 0 g).1 = []) ∧
    (∀ (key : Key) (g : RNG),
      (neuralGenerate key "pop" 0 g).1 = [(melodyScaleNotes key).headD 0]) ∧
    (∀ (key : Key) (population_size generations : ℕ) (name : String)
      (custom_chords : Option (List Chord)) (g : RNG), 1 ≤ population_size →
      geneticGenerate key population_size generations 0 name custom_chords
        g = none) ∧
    (∀ (key : Key) (simulations : ℕ) (g : RNG), 1 ≤ simulations →
      mctsGenerate key simulations 0 g = none) ∧
    (∀ (key : Key) (beats_per_bar : ℕ) (progression : ChordProgression)
      (chords_per_bar : ℕ) (rhythm : String) (vl : Bool)
      (inversion_mode : String) (g : RNG), 1 ≤ chords_per_bar →
      (progressionGenerate key beats_per_bar progression 0 chords_per_bar
        rhythm vl inversion_mode g).map Prod.fst = some []) ∧
    (∀ (key : Key) (beats_per_bar : ℕ) (density : ℚ) (avoid : Bool)
      (cadence : Option (List ℤ)) (g : RNG),
      (diatonicGenerate key beats_per_bar 0 density avoid cadence g).map
        Prod.fst = some []) ∧
    (∀ (key : Key) (beats_per_bar : ℕ) (phrase_structure : String) (g : RNG),
      phrase_structure.length ≠ 0 →
      ∃ out g', functionalGenerate key beats_per_bar 0 phrase_structure g =
        some (out, g') ∧ out.length = 4 * phrase_structure.length ∧
        ∀ e ∈ out, e.2 = 0) ∧
    (∀ (key : Key) (beats_per_bar : ℕ) (progression : ChordProgression)
      (split_ratio : ℚ) (g : RNG),
      (hybridHarmonyGenerate key beats_per_bar progression 0 split_ratio
        g).map Prod.fst = some []) ∧
    (∀ (beats_per_bar : ℕ) (allowed : List ℚ) (g : RNG),
      randomRhythmGenerate beats_per_bar allowed 0 g = some []) ∧
    (∀ (pat : Option RhythmPattern) (beats_per_bar : ℕ) (g : RNG),
      (patternRhythmGenerate pat beats_per_bar 0 g).1 = some []) ∧
    (∀ (beats_per_bar : ℕ) (swingAmount : ℚ),
      swingRhythmGenerate beats_per_bar swingAmount 0 = []) ∧
    (∀ (beats_per_bar : ℕ) (style : String) (g : RNG),
      grooveRhythmGenerate beats_per_bar style 0 g = some []) ∧
    (∀ (beats_per_bar : ℕ) (g : RNG),
      hybridRhythmGenerate beats_per_bar 0 g = some []) := by
  refine ⟨?_, ?_, ?_, ?_, ?_, ?_, ?_, ?_, ?_, ?_, ?_, ?_, ?_, ?_, ?_⟩
  · intro key s g; rfl
  · intro key ms rc vt g; rfl
  · intro key style g hstyle
    by_cases hj : style = "jazz"
    · simp [neuralGenerate, hj]
      rfl
    · simp [neuralGenerate, hj, hstyle]
      rfl
  · intro key g
    simp [neuralGenerate]
    rfl
  · exact fun key ps gens name cc g h => geneticGenerate_zero key ps gens
      name cc g h
  · exact fun key sims g h => mctsGenerate_zero key sims g h
  · exact fun key bpb prog cpb rhy vl im g h =>
      progressionGenerate_zero key bpb prog cpb rhy vl im g h
  · exact fun key bpb density avoid cad g =>
      diatonicGenerate_zero key bpb density avoid cad g
  · exact fun key bpb ps g h => functionalGenerate_zero key bpb ps g h
  · exact fun key bpb prog r g => hybridHarmonyGenerate_zero key bpb prog r g
  · exact fun bpb allowed g => randomRhythmGenerate_zero bpb allowed g
  · exact fun pat bpb g => patternRhythmGenerate_zero pat bpb g
  · exact fun bpb sw => swingRhythmGenerate_zero bpb sw
  · exact fun bpb style g => grooveRhythmGenerate_zero bpb style g
  · exact fun bpb g => hybridRhythmGenerate_zero bpb g

/-- C3 counterexample: the Functional harmony strategy asked for zero bars
returns sixteen (zero-duration) tuples for the default "AABA" structure —
not an empty sequence. -/
theorem C3_zero_length_counterexample :
    (functionalGenerate Key.C_MAJOR 4 0 "AABA" constRNG).map
      (fun r => r.1.length) = some 16 ∧ (16 : ℕ) ≠ 0 := by
  obtain ⟨out, g', heq, hlen, _⟩ :=
    functionalGenerate_zero Key.C_MAJOR 4 "AABA" constRNG (by decide)
  refine ⟨?_, by decide⟩
  rw [heq]
  show some out.length = some 16
  rw [hlen]
  decide

/-- C3 witness: the hypothesis-bearing cases at concrete inputs. -/
theorem C3_zero_length_witness :
    (neuralGenerate Key.C_MAJOR "jazz" 0 constRNG).1 = [] ∧
    geneticGenerate Key.C_MAJOR 50 100 0 "pop_basic" none constRNG = none ∧
    mctsGenerate Key.C_MAJOR 1000 0 constRNG = none ∧
    (progressionGenerate Key.C_MAJOR 4
      ⟨"pop_basic", "I-V-vi-IV",
        [(1, .MAJOR), (5, .MAJOR), (6, .MINOR), (4, .MAJOR)], "pop", 1⟩
      0 1 "steady" false "none" constRNG).map Prod.fst = some [] ∧
    (∃ out g', functionalGenerate Key.C_MAJOR 4 0 "AABA" constRNG =
      some (out, g') ∧ out.length = 4 * ("AABA" : String).length ∧
      ∀ e ∈ out, e.2 = 0) := by
  have h := C3_zero_length_amended
  exact ⟨h.2.2.1 Key.C_MAJOR "jazz" constRNG (by decide),
    h.2.2.2.2.1 Key.C_MAJOR 50 100 "pop_basic" none constRNG (by norm_num),
    h.2.2.2.2.2.1 Key.C_MAJOR 1000 constRNG (by norm_num),
    h.2.2.2.2.2.2.1 Key.C_MAJOR 4 _ 1 "steady" false "none" constRNG
      (by norm_num),
    h.2.2.2.2.2.2.2.2.1 Key.C_MAJOR 4 "AABA" constRNG (by decide)⟩

end MidiGen
